import Mathlib

/-!
Verification development for the advisory/conversation state engine of the
grant-proposal writing assistant (source: `src/flask_app/openai_advisor.py`,
with type aliases from `src/flask_app/llm_interface.py` and the static
question table from `src/flask_app/context_variables.py`).

The Python code is shallowly embedded: pure helpers (`clean_outputs`,
`markdown_diff` together with the `difflib.SequenceMatcher` machinery it
invokes) become executable Lean functions on `List Char` / `List String`;
the stateful `OpenAIBasicAdvisor` methods become explicit state-passing
functions over an `EngineState` record.  The external collaborators are
parameters: the completion collaborator is a response stream
`oracle : Nat → String` (call number ↦ raw response text), `json.loads` is a
parameter `jl : String → Option Json` (`none` models `json.JSONDecodeError`),
and `float(...)` is a parameter `pf : String → Option Rat`.  Python
exceptions become an explicit error type; every method returns the produced
value (or error), the post-state, and the log of message lists sent to the
completion collaborator (so that invocation counts and request contents are
observable).
-/

/-! ## Python string primitives -/

/-- Characters considered whitespace by Python's `str.strip()` / `str.split()`
(space, tab, newline, carriage return, vertical tab, form feed). -/
def isPySpace (c : Char) : Bool :=
  c = ' ' || c = '\t' || c = '\n' || c = '\r' || c = '\x0b' || c = '\x0c'

/-- Python `str.strip()` on a character list: drop leading and trailing
whitespace. -/
def pyStripList (l : List Char) : List Char :=
  ((l.dropWhile isPySpace).reverse.dropWhile isPySpace).reverse

/-- Python `str.strip()`. -/
def pyStrip (s : String) : String :=
  String.mk (pyStripList s.toList)

/-- Helper for `str.split()`: cut a character list at whitespace characters,
keeping empty fragments (they are filtered out afterwards, matching Python's
no-argument `split`, which never returns empty strings). -/
def wordsCore : List Char → List (List Char)
  | [] => []
  | c :: cs =>
    let ws := wordsCore cs
    if isPySpace c then [] :: ws
    else
      match ws with
      | [] => [[c]]
      | w :: rest => (c :: w) :: rest

/-- Python `str.split()` (no argument): split on whitespace runs, no empty
words. -/
def pyWords (s : String) : List String :=
  ((wordsCore s.toList).filter (fun w => !w.isEmpty)).map String.mk

/-- Python `" ".join(ws)`. -/
def joinSpace : List String → String
  | [] => ""
  | [s] => s
  | s :: rest => s ++ " " ++ joinSpace rest

/-! ## `clean_outputs` (`openai_advisor.py`, lines 13–25)

`re.sub(pat, '', s)` replaces the leftmost non-overlapping matches of `pat`
in `s` by the empty string, scanning left to right.  The two patterns used
are `json(\n)*` (the literal letters `json` followed by a greedy run of
newlines) and the literal ```` ``` ````.  Each scan consumes at least one
character per step, so a fuel equal to the input length is always
sufficient; the fueled definitions below therefore agree with `re.sub` on
every input. -/

/-- One `re.sub(r'json(\n)*', '', ·)` scan (fueled; fuel ≥ length suffices). -/
def subJsonF : Nat → List Char → List Char
  | 0, l => l
  | _ + 1, [] => []
  | f + 1, 'j' :: 's' :: 'o' :: 'n' :: rest => subJsonF f (rest.dropWhile (· = '\n'))
  | f + 1, c :: rest => c :: subJsonF f rest

/-- `re.sub(r'json(\n)*', '', l)`. -/
def subJson (l : List Char) : List Char :=
  subJsonF l.length l

/-- One `re.sub("```", "", ·)` scan (fueled; fuel ≥ length suffices). -/
def subTicksF : Nat → List Char → List Char
  | 0, l => l
  | _ + 1, [] => []
  | f + 1, '\x60' :: '\x60' :: '\x60' :: rest => subTicksF f rest
  | f + 1, c :: rest => c :: subTicksF f rest

/-- `re.sub("```", "", l)`. -/
def subTicks (l : List Char) : List Char :=
  subTicksF l.length l

/-- `clean_outputs` (`openai_advisor.py`, lines 13–25): strip surrounding
whitespace, then delete every occurrence of `json` (with any following
newlines), then delete every occurrence of the code-fence delimiter. -/
def clean_outputs (s : String) : String :=
  String.mk (subTicks (subJson (pyStripList s.toList)))

/-! ## `difflib.SequenceMatcher(None, a, b)` as used by `markdown_diff`

`markdown_diff` (`openai_advisor.py`, lines 29–69) calls
`difflib.SequenceMatcher(None, old_words, new_words).get_opcodes()`.  The
embedding below follows CPython's `difflib` with `isjunk=None` and
`autojunk=True`:

* `b2j` maps an element to its (increasing) list of indices in `b`; when
  `len(b) >= 200`, "popular" elements (more than `len(b)//100 + 1`
  occurrences) are deleted from `b2j`;
* with `isjunk=None` the junk set `bjunk` is empty, so in
  `find_longest_match` the two junk-extension `while` loops never execute
  and the `not isbjunk(...)` tests in the first two loops are always true;
  they are omitted accordingly;
* `get_matching_blocks` processes its LIFO queue by handling the right
  subrange before the left one, which the recursion below mirrors
  (`current :: right ++ left`); its fuel only needs to cover the recursion
  depth, which is bounded by the total range size since every child range
  is strictly smaller.
-/

/-- `b2j.get(x, [])`: increasing list of indices of `x` in `b`, empty for
popular elements (autojunk, active only when `len(b) >= 200`). -/
def b2j (b : List String) (x : String) : List Nat :=
  if 200 ≤ b.length ∧ b.length / 100 + 1 < b.count x then []
  else (List.range b.length).filter (fun j => b.getD j "" = x)

/-- State of the `find_longest_match` dynamic program: the current row's
`newj2len` table (total function, default 0) and the best match so far. -/
abbrev FlmState := (Nat → Nat) × Nat × Nat × Nat

/-- Inner loop body of `find_longest_match` for one index `j` of row `i`:
`k = newj2len[j] = j2len.get(j-1, 0) + 1`, then update the best match if `k`
beats it.  Python's `j2len.get(-1, 0)` is 0 (the key `-1` never occurs), so
`j = 0` reads 0 rather than `j2lenPrev (j-1) = j2lenPrev 0`.  Python's
`besti, bestj = i-k+1, j-k+1` is written `i+1-k`, `j+1-k`; `k ≤ i+1` and
`k ≤ j+1` always hold (`flmDP_bounds` below), so the ℕ subtraction agrees. -/
def flmInner (j2lenPrev : Nat → Nat) (i : Nat) (st : FlmState) (j : Nat) : FlmState :=
  let (newj2len, bi, bj, bs) := st
  let k := (if j = 0 then 0 else j2lenPrev (j - 1)) + 1
  let newj2len' := fun x => if x = j then k else newj2len x
  if bs < k then (newj2len', i + 1 - k, j + 1 - k, k) else (newj2len', bi, bj, bs)

/-- The `j` indices scanned in row `i`: `for j in b2j.get(a[i], [])` with
`continue` on `j < blo` and `break` on `j >= bhi` (the list is increasing). -/
def rowIndices (b : List String) (blo bhi : Nat) (x : String) : List Nat :=
  ((b2j b x).takeWhile (fun j => j < bhi)).filter (fun j => blo ≤ j)

/-- One row `i` of the `find_longest_match` dynamic program; the row starts
from an empty `newj2len` and replaces `j2len` at the end. -/
def flmRow (a b : List String) (blo bhi : Nat) (acc : FlmState) (i : Nat) : FlmState :=
  let (j2len, bi, bj, bs) := acc
  (rowIndices b blo bhi (a.getD i "")).foldl (flmInner j2len i) ((fun _ => 0), bi, bj, bs)

/-- The dynamic-programming part of `find_longest_match`: returns
`(besti, bestj, bestsize)` before the extension loops. -/
def flmDP (a b : List String) (alo ahi blo bhi : Nat) : Nat × Nat × Nat :=
  let (_, bi, bj, bs) := (List.range' alo (ahi - alo)).foldl (flmRow a b blo bhi)
    ((fun _ => 0), alo, blo, 0)
  (bi, bj, bs)

/-- First extension loop of `find_longest_match`:
`while besti > alo and bestj > blo and a[besti-1] == b[bestj-1]` (the junk
test is vacuous), extend the match one element to the left. -/
def extendLeft (a b : List String) (alo blo : Nat) : Nat → Nat → Nat → Nat × Nat × Nat
  | bi + 1, bj + 1, bs =>
    if alo < bi + 1 ∧ blo < bj + 1 ∧ a.getD bi "" = b.getD bj "" then
      extendLeft a b alo blo bi bj (bs + 1)
    else (bi + 1, bj + 1, bs)
  | bi, bj, bs => (bi, bj, bs)

/-- Second extension loop of `find_longest_match`:
`while besti+bestsize < ahi and bestj+bestsize < bhi and a[...] == b[...]`,
extend to the right.  Each iteration needs `bi + bs < ahi`, so `ahi` fuel
always suffices. -/
def extendRightF (a b : List String) (ahi bhi bi bj : Nat) : Nat → Nat → Nat
  | 0, bs => bs
  | f + 1, bs =>
    if bi + bs < ahi ∧ bj + bs < bhi ∧ a.getD (bi + bs) "" = b.getD (bj + bs) "" then
      extendRightF a b ahi bhi bi bj f (bs + 1)
    else bs

/-- `SequenceMatcher.find_longest_match(alo, ahi, blo, bhi)`. -/
def findLongestMatch (a b : List String) (alo ahi blo bhi : Nat) : Nat × Nat × Nat :=
  let (bi, bj, bs) := flmDP a b alo ahi blo bhi
  let (bi, bj, bs) := extendLeft a b alo blo bi bj bs
  (bi, bj, extendRightF a b ahi bhi bi bj ahi bs)

/-- The matching blocks produced by `get_matching_blocks`' queue loop, in
production order (current match, then the right subrange — popped first from
the LIFO queue — then the left subrange). -/
def rawBlocksF (a b : List String) : Nat → Nat → Nat → Nat → Nat → List (Nat × Nat × Nat)
  | 0, _, _, _, _ => []
  | f + 1, alo, ahi, blo, bhi =>
    let (i, j, k) := findLongestMatch a b alo ahi blo bhi
    if k ≠ 0 then
      (i, j, k) ::
        ((if i + k < ahi ∧ j + k < bhi then rawBlocksF a b f (i + k) ahi (j + k) bhi else []) ++
          (if alo < i ∧ blo < j then rawBlocksF a b f alo i blo j else []))
    else []

/-- Lexicographic order on blocks, matching Python's tuple comparison. -/
def blockLe (x y : Nat × Nat × Nat) : Bool :=
  x.1 < y.1 || (x.1 = y.1 && (x.2.1 < y.2.1 || (x.2.1 = y.2.1 && x.2.2 ≤ y.2.2)))

/-- Stable insertion into a `blockLe`-sorted list. -/
def insertBlock (x : Nat × Nat × Nat) : List (Nat × Nat × Nat) → List (Nat × Nat × Nat)
  | [] => [x]
  | y :: ys => if blockLe x y then x :: y :: ys else y :: insertBlock x ys

/-- `matching_blocks.sort()`: `blockLe` is a total order that is
antisymmetric up to tuple equality, so the sorted permutation is unique and
any correct sort — here a stable insertion sort — produces exactly Python's
result. -/
def sortBlocks (l : List (Nat × Nat × Nat)) : List (Nat × Nat × Nat) :=
  l.foldr insertBlock []

/-- `SequenceMatcher.get_matching_blocks()`: sort the raw blocks, coalesce
adjacent blocks, and append the `(la, lb, 0)` terminator. -/
def getMatchingBlocks (a b : List String) : List (Nat × Nat × Nat) :=
  let raw := rawBlocksF a b (a.length + b.length + 1) 0 a.length 0 b.length
  let sorted := sortBlocks raw
  let step := fun (acc : List (Nat × Nat × Nat) × (Nat × Nat × Nat)) blk =>
    let (out, cur) := acc
    let (i1, j1, k1) := cur
    let (i2, j2, k2) := blk
    if i1 + k1 = i2 ∧ j1 + k1 = j2 then (out, (i1, j1, k1 + k2))
    else (out ++ (if k1 ≠ 0 then [(i1, j1, k1)] else []), (i2, j2, k2))
  let (done, last) := sorted.foldl step ([], (0, 0, 0))
  done ++ (if last.2.2 ≠ 0 then [last] else []) ++ [(a.length, b.length, 0)]

/-- Opcode tags of `get_opcodes` (`'equal'`, `'delete'`, `'insert'`,
`'replace'`). -/
inductive DTag where
  | equal
  | del
  | ins
  | replace
deriving DecidableEq

/-- `SequenceMatcher.get_opcodes()`. -/
def getOpcodes (a b : List String) : List (DTag × Nat × Nat × Nat × Nat) :=
  let step := fun (acc : List (DTag × Nat × Nat × Nat × Nat) × Nat × Nat) blk =>
    let (answer, i, j) := acc
    let (ai, bj, size) := blk
    let answer := answer ++
      (if i < ai ∧ j < bj then [(DTag.replace, i, ai, j, bj)]
       else if i < ai then [(DTag.del, i, ai, j, bj)]
       else if j < bj then [(DTag.ins, i, ai, j, bj)]
       else [])
    let answer := answer ++
      (if size ≠ 0 then [(DTag.equal, ai, ai + size, bj, bj + size)] else [])
    (answer, ai + size, bj + size)
  ((getMatchingBlocks a b).foldl step ([], 0, 0)).1

/-! ## `markdown_diff` (`openai_advisor.py`, lines 29–69) -/

/-- Python slice `l[i1:i2]` (for `0 ≤ i1 ≤ i2`). -/
def pySlice (l : List String) (i1 i2 : Nat) : List String :=
  (l.take i2).drop i1

/-- The `result` list built by `markdown_diff`'s opcode loop: unchanged words
are appended one by one, deleted runs are wrapped in `~~`, inserted runs in
`**`, and replaced runs contribute the wrapped old run then the wrapped new
run. -/
def opChunks (oldW newW : List String) (ops : List (DTag × Nat × Nat × Nat × Nat)) :
    List String :=
  ops.foldl (fun result op =>
    let (tag, i1, i2, j1, j2) := op
    match tag with
    | DTag.equal => result ++ pySlice oldW i1 i2
    | DTag.del => result ++ ["~~" ++ joinSpace (pySlice oldW i1 i2) ++ "~~"]
    | DTag.ins => result ++ ["**" ++ joinSpace (pySlice newW j1 j2) ++ "**"]
    | DTag.replace => result ++ ["~~" ++ joinSpace (pySlice oldW i1 i2) ++ "~~",
        "**" ++ joinSpace (pySlice newW j1 j2) ++ "**"]) []

/-- `markdown_diff(original, updated)`. -/
def markdown_diff (original updated : String) : String :=
  let oldW := pyWords original
  let newW := pyWords updated
  joinSpace (opChunks oldW newW (getOpcodes oldW newW))

/-! ## Data model

Type aliases from `llm_interface.py`: a chat message is a `{role, content}`
record, paragraph ids and texts are strings.  Parsed JSON values (the
codomain of the `json.loads` parameter) are modelled by `Json`.  Python
exceptions are modelled by `PyErr`.
-/

/-- A `ChatMessage` (`llm_interface.py`, line 8). -/
structure Msg where
  role : String
  content : String
deriving DecidableEq

/-- The Python exceptions the embedded code can raise. -/
inductive PyErr where
  | valueError (msg : String)
  | keyError (key : String)
  | assertionError (msg : String)
  | typeError (msg : String)
  | indexError (msg : String)
  | unboundLocalError (name : String)
  | notImplementedError (msg : String)
deriving DecidableEq

/-- Parsed JSON values (the result type of the `json.loads` collaborator). -/
inductive Json where
  | null
  | bool (b : Bool)
  | num (n : Int)
  | str (s : String)
  | arr (items : List Json)
  | obj (fields : List (String × Json))

/-! ### Python `dict` semantics

Python dicts preserve insertion order; updating an existing key keeps its
position, inserting a new key appends.  They are modelled as association
lists with unique keys. -/

/-- `d.get(k)` / `k in d`. -/
def dictGet {α : Type} (d : List (String × α)) (k : String) : Option α :=
  (d.find? (fun p => p.1 = k)).map (·.2)

/-- `d[k] = v`: replace the (unique) occurrence of `k` in place if present,
else append.  All dicts of the engine are built from `[]` through `dictSet`,
so keys are unique and this matches Python's in-place update / append
behaviour. -/
def dictSet {α : Type} : List (String × α) → String → α → List (String × α)
  | [], k, v => [(k, v)]
  | p :: d, k, v => if p.1 = k then (k, v) :: d else p :: dictSet d k v

/-- `defaultdict` access `d[k]`: return the entry, inserting `dflt` (at the
end, like Python) when the key is absent. -/
def getOrCreate {α : Type} (d : List (String × α)) (k : String) (dflt : α) :
    α × List (String × α) :=
  match dictGet d k with
  | some v => (v, d)
  | none => (dflt, d ++ [(k, dflt)])

/-! ### Static question table (`context_variables.py`) -/

/-- One entry of `PARAGRAPH_CONTEXTS`. -/
structure QContext where
  question : String
  context : String
deriving DecidableEq

/-- `PARAGRAPH_CONTEXTS` (`context_variables.py`, lines 1–26). -/
def PARAGRAPH_CONTEXTS : List (String × QContext) :=
  [("q1",
    { question := "What specific problem does your project address? Provide context and evidence, such as research, policies, or strategies, to demonstrate its relevance.",
      context := "The text provided by the user should be clear and concrete while demonstrating relevance. It should follow a free-text format. Including statistics, numbers, and references is considered an advantage." }),
   ("q2",
    { question := "What long-term change do you aim to contribute to (impact)? What measurable outcomes do you hope to achieve by the end of the project (goals), and for whom?",
      context := "The text provided by the user should clearly outline the points being addressed, with separate paragraphs for each goal and evident numbering of the goals. It should not be overly elaborate." }),
   ("q3",
    { question := "List the project objectives for this grant period, the activities required to achieve them and indicators to measure signs of progress.",
      context := "The text provided should include a general impact and several goals. Under each goal, provide the corresponding objectives, activities and Indicators in the following structured format: Goal 1: Objective 1: Activities: Indicators: Objective 2: Activities: Indicators: Goal 2: Objective 3: Activities: Indicators: ..." }),
   ("q4",
    { question := "What risks or challenges might affect the project\x27s success? How will you address and mitigate them?",
      context := "The text provided should comprehensively address different types of risks, including financial, operational, and external risks (e.g., political, environmental), as well as stakeholder-related risks. The answer should specify how these risks will be actively mitigated. It should follow a free-text format and can include bullet points. " }),
   ("q5",
    { question := "How will you track project progress and measure success? Describe data collection methods, responsible parties, and how participants (including children) will be involved.",
      context := "The text provided should detail the concrete evaluation plans for all project objectives. It should follow a free-text format and can include bullet points. " }),
   ("q6",
    { question := "How will the project\x27s impact continue beyond the funding period? What are your plans for securing long-term sustainability, funding, or integration into existing systems?",
      context := "The text provided should be clear and concrete while demonstrating relevance. It should follow a free-text format and can include bullet points. " })]

/-! ### Engine state (`OpenAIBasicAdvisor.__init__`, lines 80–92) -/

/-- The mutable state of an `OpenAIBasicAdvisor` instance: per-paragraph,
per-advice chat threads, stored paragraph texts, per-paragraph advice→extract
maps, and the optional project context (`None` until set). -/
structure EngineState where
  chatHistory : List (String × List (String × List Msg))
  paragraphs : List (String × String)
  advices : List (String × List (String × String))
  initialContext : Option String
deriving DecidableEq

/-- The state right after `__init__`. -/
def initState : EngineState :=
  { chatHistory := [], paragraphs := [], advices := [], initialContext := none }

/-- `context_prompt` (line 78). -/
def contextPrompt : String :=
  "You are an LLM advisor that has to give feedback to grant proposal writing for proposal aimed a the non-profit World Childhood Foundation."

/-- `_openai_call` (lines 94–103): send `msgs` to the completion
collaborator and return the stripped response text.  The collaborator is a
response stream `oracle : Nat → String` indexed by the number of calls made
so far; the log records the message list of every call. -/
def openaiCall (oracle : Nat → String) (msgs : List Msg) (log : List (List Msg)) :
    String × List (List Msg) :=
  (pyStrip (oracle log.length), log ++ [msgs])

/-- Result of one engine operation: the returned value or raised exception,
the post-state (mutations made before a raise persist, as in Python), and
the log of completion-collaborator calls. -/
abbrev OpResult (α : Type) := Except PyErr α × EngineState × List (List Msg)

/-- `add_initial_context` (lines 105–109). -/
def addInitialContext (st : EngineState) (context : String) : EngineState :=
  { st with initialContext := some context }

/-- `process_whole_text` (lines 111–158): raises `NotImplementedError`
before doing anything else. -/
def processWholeText (st : EngineState) (_text : List (String × String)) : OpResult Unit :=
  (Except.error (PyErr.notImplementedError "This method is not implemented in this class."), st, [])

/-! ### `score_paragraph` (lines 160–186)

The response is parsed with `float(...)`, modelled by the parameter
`pf : String → Option Rat`.  The retry loop makes up to 3 parse attempts;
after the third failure it issues one more collaborator call (whose response
is never parsed) and falls out of the `while`.  `score_paragraph` has no
`else` on its loop, so when every attempt fails the final `return score`
raises `UnboundLocalError` (`score` was never assigned). -/

/-- The `while retries > 0` float-parse loop of `score_paragraph`: one parse
attempt per unit of `retries`, issuing a fresh collaborator call after each
failure. -/
def floatRetryLoop (pf : String → Option Rat) (oracle : Nat → String) (messages : List Msg) :
    Nat → String → List (List Msg) → Option Rat × List (List Msg)
  | 0, _, log => (none, log)
  | r + 1, txt, log =>
    match pf txt with
    | some v => (some v, log)
    | none =>
      let (t, log') := openaiCall oracle messages log
      floatRetryLoop pf oracle messages r t log'

/-- The system prompt of `score_paragraph` (lines 162–171). -/
def scoreSystemPrompt (qc : QContext) (ictx : String) : String :=
  contextPrompt
  ++ "Analyze the following paragraph and provide a score on a scale of 0 to 1, where 0 is the worst and 1 is the best. Your score should reflect how well the paragraph answers the question and how well it is written.Be critical and provide a score that reflects the quality of the paragraph. Don\x27t hold back."
  ++ "The question the user is trying to answer is: " ++ qc.question
  ++ "This is the context of the paragraph: " ++ qc.context
  ++ "Return only the score as a float."
  ++ "\n\nThis is the general outline of the project: " ++ ictx

/-- `score_paragraph(paragraph_id, paragraph)`.  The `PARAGRAPH_CONTEXTS`
lookup (line 168) precedes the `initial_context` concatenation (line 171),
which raises `TypeError` when the context was never set (`str + None`). -/
def scoreParagraph (pf : String → Option Rat) (oracle : Nat → String)
    (st : EngineState) (pid paragraph : String) : OpResult Rat :=
  match dictGet PARAGRAPH_CONTEXTS pid with
  | none => (Except.error (PyErr.keyError pid), st, [])
  | some qc =>
    match st.initialContext with
    | none => (Except.error (PyErr.typeError "can only concatenate str (not \x22NoneType\x22) to str"), st, [])
    | some ictx =>
      let messages : List Msg := [⟨"system", scoreSystemPrompt qc ictx⟩, ⟨"user", paragraph⟩]
      let (t0, log) := openaiCall oracle messages []
      match floatRetryLoop pf oracle messages 3 t0 log with
      | (some v, log') => (Except.ok v, st, log')
      | (none, log') => (Except.error (PyErr.unboundLocalError "score"), st, log')

/-! ### Structured-completion retry loop (`add_paragraph` lines 212–224,
`update_paragraph` lines 268–280)

`json.loads` is the parameter `jl : String → Option Json` (`none` models
`json.JSONDecodeError`).  Both call sites are the same inline loop: parse
the cleaned text; on failure decrement `retries`, reissue the identical
message sequence and clean the fresh response; after the third parse failure
one final call is made (its response is never parsed) and the `while`'s
`else` raises `ValueError`. -/

/-- The `while retries > 0` JSON-parse loop shared textually by
`add_paragraph` and `update_paragraph`. -/
def jsonRetryLoop (jl : String → Option Json) (oracle : Nat → String) (messages : List Msg) :
    Nat → String → List (List Msg) → Option Json × List (List Msg)
  | 0, _, log => (none, log)
  | r + 1, txt, log =>
    match jl txt with
    | some v => (some v, log)
    | none =>
      let (t, log') := openaiCall oracle messages log
      jsonRetryLoop jl oracle messages r (clean_outputs t) log'

/-! ### `add_paragraph` (lines 188–234) -/

/-- The system prompt of `add_paragraph` (lines 193–206). -/
def addSystemPrompt (qc : QContext) (ictx : String) : String :=
  contextPrompt
  ++ "\nThe user is trying to answer the following question: " ++ qc.question
  ++ "\nThis is the context of the paragraph: " ++ qc.context
  ++ "Analyze the following paragraph and provide constructive feedback.Your goal is not to provide a full response but to instill reflection in the user.Begin by analyzing the paragraph and understanding the underling message that the user want to convey.Then reason about what a reader would not understand or what could be improved. Finally pry the user with some questions.For each question, quote the part of the paragraph that led you to ask it and begin by summarizing the texte.g. \x27Here you talk about how you would do this, but it is not clear what the final objective would be. Could you clarify that?\x27Return a JSON array of advice objects, where each object has keys \x27extract\x27 (a relevant excerpt) and \x27advice\x27 (a suggestion for improvement). Output only valid JSON."
  ++ "\n\nThis is the general outline of the project: " ++ ictx

/-- Python subscription `v[key]` on a parsed JSON value. -/
def jsonSubscript (v : Json) (key : String) : Except PyErr Json :=
  match v with
  | Json.obj fields =>
    match dictGet fields key with
    | some x => Except.ok x
    | none => Except.error (PyErr.keyError key)
  | Json.str _ => Except.error (PyErr.typeError "string indices must be integers")
  | Json.arr _ => Except.error (PyErr.typeError "list indices must be integers or slices, not str")
  | _ => Except.error (PyErr.typeError "object is not subscriptable")

/-- Python iteration `for adv in advice`: lists yield their items, strings
their characters, dicts their keys; other values raise `TypeError`. -/
def iterJson : Json → Except PyErr (List Json)
  | Json.arr xs => Except.ok xs
  | Json.str s => Except.ok (s.toList.map (fun c => Json.str (String.mk [c])))
  | Json.obj fields => Except.ok (fields.map (fun p => Json.str p.1))
  | _ => Except.error (PyErr.typeError "object is not iterable")

/-- The advice value and extract value of one advice object must be strings
for the `advices` store (`Dict[str, str]`); the engine only ever receives
string fields in the scenarios treated here, so non-string fields are
reported as `TypeError` (Python would defer such failures to later string
operations). -/
def jsonAsStr : Json → Except PyErr String
  | Json.str s => Except.ok s
  | _ => Except.error (PyErr.typeError "expected str")

/-- The storing loop of `add_paragraph` (lines 232–233):
`self.advices[paragraph_id][adv["advice"]] = adv["extract"]` for each advice
object.  Python evaluates the right-hand side (`adv["extract"]`) first, then
the `defaultdict` access `self.advices[paragraph_id]` (which creates the
entry), then the key `adv["advice"]`; errors keep the mutations already
made. -/
def storeAdvices (pid : String) : List Json → EngineState → Except PyErr Unit × EngineState
  | [], st => (Except.ok (), st)
  | adv :: rest, st =>
    match jsonSubscript adv "extract" >>= jsonAsStr with
    | Except.error e => (Except.error e, st)
    | Except.ok aext =>
      let (cur, advices1) := getOrCreate st.advices pid []
      let st1 := { st with advices := advices1 }
      match jsonSubscript adv "advice" >>= jsonAsStr with
      | Except.error e => (Except.error e, st1)
      | Except.ok akey =>
        storeAdvices pid rest
          { st1 with advices := dictSet st1.advices pid (dictSet cur akey aext) }

/-- `add_paragraph(paragraph_id, paragraph)`.  The leading
`assert self.initial_context` fails on `None` and on the empty string (both
falsy).  After a successful parse, a dict result of any size is unwrapped by
`advice.popitem()[1]` (the last field's value; `KeyError` when empty); then
the paragraph is stored and each advice object is recorded. -/
def addParagraph (jl : String → Option Json) (oracle : Nat → String)
    (st : EngineState) (pid paragraph : String) : OpResult Json :=
  match st.initialContext with
  | none =>
    (Except.error (PyErr.assertionError "You must provide an initial context before adding a paragraph."), st, [])
  | some ictx =>
    if ictx = "" then
      (Except.error (PyErr.assertionError "You must provide an initial context before adding a paragraph."), st, [])
    else
      match dictGet PARAGRAPH_CONTEXTS pid with
      | none => (Except.error (PyErr.keyError pid), st, [])
      | some qc =>
        let messages : List Msg := [⟨"system", addSystemPrompt qc ictx⟩, ⟨"user", paragraph⟩]
        let (t0, log0) := openaiCall oracle messages []
        match jsonRetryLoop jl oracle messages 3 (clean_outputs t0) log0 with
        | (none, log) =>
          (Except.error (PyErr.valueError "Failed to decode JSON response from OpenAI for add_paragraph."), st, log)
        | (some advice0, log) =>
          let unwrapped : Except PyErr Json :=
            match advice0 with
            | Json.obj fields =>
              match fields.getLast? with
              | none => Except.error (PyErr.keyError "popitem(): dictionary is empty")
              | some last => Except.ok last.2
            | v => Except.ok v
          match unwrapped with
          | Except.error e => (Except.error e, st, log)
          | Except.ok advice =>
            let st1 := { st with paragraphs := dictSet st.paragraphs pid paragraph }
            match iterJson advice with
            | Except.error e => (Except.error e, st1, log)
            | Except.ok items =>
              match storeAdvices pid items st1 with
              | (Except.error e, st2) => (Except.error e, st2, log)
              | (Except.ok _, st2) => (Except.ok advice, st2, log)

/-! ### `update_paragraph` (lines 236–285) -/

/-- The enumeration of prior advice in `update_paragraph`'s prompt
(lines 247–250): for each stored `advice ↦ extract` pair, in insertion
order, `f"\nExtract: {extract}, Advice given: {advice}"`. -/
def oldAdviceText (old_advice : List (String × String)) : String :=
  (old_advice.foldl
    (fun acc p => acc ++ "\nExtract: " ++ p.2 ++ ", Advice given: " ++ p.1)
    "Here\x27s the list of advices given to the previous version of the paragraph:") ++ "\n"

/-- The system prompt of `update_paragraph` (lines 251–262). -/
def updateSystemPrompt (qc : QContext) (advice_text ictx : String) : String :=
  contextPrompt
  ++ "\nThe user is trying to answer the following question: " ++ qc.question
  ++ "\nThis is the context of the paragraph: " ++ qc.context
  ++ "\nA paragraph has been updated."
  ++ advice_text
  ++ "Below are the merged paragraph, highlighting the changes. Focus on the differences and provide constructive feedback on the changes. Return a JSON array of advice objects, based on the previous advice given, removing advice that has been fixed and keeping advice that has not been addressed in the same wording, where each object has keys \x27extract\x27 and \x27advice\x27. Output only valid JSON."
  ++ "\n\nThis is the general outline of the project: " ++ ictx

/-- `update_paragraph(paragraph_id, paragraph)`.  On a never-seen id it
delegates to `add_paragraph` before touching anything (lines 240–242).
Otherwise it diffs against the stored text, reads the prior advice
(`self.advices[paragraph_id]` is a `defaultdict` access, creating the entry
if absent), calls structured completion, replaces the stored paragraph and
returns the parsed advice without any unwrapping and without touching
`advices`. -/
def updateParagraph (jl : String → Option Json) (oracle : Nat → String)
    (st : EngineState) (pid paragraph : String) : OpResult Json :=
  match dictGet st.paragraphs pid with
  | none => addParagraph jl oracle st pid paragraph
  | some old_paragraph =>
    let merged := markdown_diff old_paragraph paragraph
    let (old_advice, advices1) := getOrCreate st.advices pid []
    let st1 := { st with advices := advices1 }
    let advice_text := oldAdviceText old_advice
    match dictGet PARAGRAPH_CONTEXTS pid with
    | none => (Except.error (PyErr.keyError pid), st1, [])
    | some qc =>
      match st1.initialContext with
      | none => (Except.error (PyErr.typeError "can only concatenate str (not \x22NoneType\x22) to str"), st1, [])
      | some ictx =>
        let messages : List Msg := [⟨"system", updateSystemPrompt qc advice_text ictx⟩, ⟨"user", merged⟩]
        let (t0, log0) := openaiCall oracle messages []
        match jsonRetryLoop jl oracle messages 3 (clean_outputs t0) log0 with
        | (none, log) =>
          (Except.error (PyErr.valueError "Failed to decode JSON response from OpenAI for update_paragraph."), st1, log)
        | (some advice, log) =>
          (Except.ok advice, { st1 with paragraphs := dictSet st1.paragraphs pid paragraph }, log)

/-! ### `paragraph_reply` (lines 287–357) -/

/-- The lazily created seed thread (lines 301–305): system persona, the
stored paragraph text as a user turn, and a synthetic assistant turn
embedding extract and advice. -/
def seedHistory (paragraph extract advice : String) : List Msg :=
  [⟨"system", contextPrompt ++ " Be concise with your answers e.g. a few sentences and DON\x27T USE BULLET POINTS."⟩,
   ⟨"user", paragraph⟩,
   ⟨"assistant", "Considering the following extract of your paragraph: " ++ extract ++ "\n" ++ advice⟩]

/-- Role relabelling for the returned display copy (lines 309–313 and
346–350): `assistant → "Assistant"`, `user → "You"`. -/
def relabelRole (r : String) : String :=
  if r = "assistant" then "Assistant" else if r = "user" then "You" else r

/-- The display copy returned by `paragraph_reply` (lines 307–314 and
344–351): deep-copy the thread, overwrite the content of turn 2 with the
bare advice key, relabel the roles, and return the slice from turn 2 on.
The copy-then-mutate acts on the copy only; `to_return[2]` raises
`IndexError` if the thread has fewer than 3 turns. -/
def displayView (h : List Msg) (advice : String) : Except PyErr (List Msg) :=
  if h.length < 3 then Except.error (PyErr.indexError "list assignment index out of range")
  else
    let h2 := h.set 2 ⟨(h.getD 2 ⟨"", ""⟩).role, advice⟩
    Except.ok ((h2.map (fun m => ⟨relabelRole m.role, m.content⟩)).drop 2)

/-- `paragraph_reply(paragraph_id, paragraph_advice, reply)`.  Requires the
paragraph to exist; `extract = self.advices[paragraph_id][paragraph_advice]`
first performs a `defaultdict` access (creating an empty advice map for the
id if absent — a mutation that persists even when the advice key is then
missing and `KeyError` is raised).  With `reply=None` the (possibly
lazily-built) thread is returned as a display copy without any model call
and without persisting the thread; with a reply, a user turn and the
assistant's response are appended and the thread is persisted. -/
def paragraphReply (oracle : Nat → String) (st : EngineState)
    (pid advice_key : String) (reply : Option String) : OpResult (List Msg) :=
  match dictGet st.paragraphs pid with
  | none => (Except.error (PyErr.valueError ("Paragraph ID " ++ pid ++ " does not exist.")), st, [])
  | some paragraph =>
    let (advMap, advices1) := getOrCreate st.advices pid []
    let st1 := { st with advices := advices1 }
    match dictGet advMap advice_key with
    | none => (Except.error (PyErr.keyError advice_key), st1, [])
    | some extract =>
      let base_history :=
        match dictGet st1.chatHistory pid with
        | some inner =>
          match dictGet inner advice_key with
          | some h => h
          | none => seedHistory paragraph extract advice_key
        | none => seedHistory paragraph extract advice_key
      match reply with
      | none =>
        match displayView base_history advice_key with
        | Except.error e => (Except.error e, st1, [])
        | Except.ok view => (Except.ok view, st1, [])
      | some r =>
        let base2 := base_history ++ [⟨"user", r⟩]
        let (resp, log) := openaiCall oracle base2 []
        let base3 := base2 ++ [⟨"assistant", resp⟩]
        let inner := (dictGet st1.chatHistory pid).getD []
        let st2 := { st1 with
          chatHistory := dictSet st1.chatHistory pid (dictSet inner advice_key base3) }
        match displayView base3 advice_key with
        | Except.error e => (Except.error e, st2, log)
        | Except.ok view => (Except.ok view, st2, log)

/-! ### `enhance_paragraph` (lines 359–399) -/

/-- The system prompt of `enhance_paragraph` (lines 365–368). -/
def enhanceSystemPrompt : String :=
  "You are an expert writing assistant. Enhance the following paragraph to improve its clarity, coherence, and style. Return only the enhanced paragraph text."

/-- Return type of `enhance_paragraph`: one string for the single-id form, a
list for the multi-id form. -/
inductive EnhResult where
  | one (s : String)
  | many (xs : List String)
deriving DecidableEq

/-- The `for pid in paragraph_ids` loop of `enhance_paragraph`
(lines 385–396): each id is validated just before its own model call, so a
missing id aborts the loop after the calls for the preceding ids have
already been made. -/
def enhanceLoop (oracle : Nat → String) (st : EngineState) :
    List String → List String → List (List Msg) → Except PyErr (List String) × List (List Msg)
  | [], acc, log => (Except.ok acc, log)
  | pid :: rest, acc, log =>
    match dictGet st.paragraphs pid with
    | none => (Except.error (PyErr.valueError ("Paragraph ID " ++ pid ++ " does not exist.")), log)
    | some ptext =>
      let (enh, log') := openaiCall oracle [⟨"system", enhanceSystemPrompt⟩, ⟨"user", ptext⟩] log
      enhanceLoop oracle st rest (acc ++ [enh]) log'

/-- `enhance_paragraph(paragraph_id=…, paragraph_ids=…)`. -/
def enhanceParagraph (oracle : Nat → String) (st : EngineState)
    (pid? : Option String) (pids? : Option (List String)) : OpResult EnhResult :=
  match pid?, pids? with
  | some _, some _ =>
    (Except.error (PyErr.valueError "Provide either \x27paragraph_id\x27 or \x27paragraph_ids\x27, not both."), st, [])
  | some pid, none =>
    match dictGet st.paragraphs pid with
    | none => (Except.error (PyErr.valueError ("Paragraph ID " ++ pid ++ " does not exist.")), st, [])
    | some ptext =>
      let (enh, log) := openaiCall oracle [⟨"system", enhanceSystemPrompt⟩, ⟨"user", ptext⟩] []
      (Except.ok (EnhResult.one enh), st, log)
  | none, some pids =>
    match enhanceLoop oracle st pids [] [] with
    | (Except.ok xs, log) => (Except.ok (EnhResult.many xs), st, log)
    | (Except.error e, log) => (Except.error e, st, log)
  | none, none =>
    (Except.error (PyErr.valueError "Either \x27paragraph_id\x27 or \x27paragraph_ids\x27 must be provided."), st, [])

/-! ## Specification-side definitions used to state the claims -/

/-- `pat` occurs as a contiguous substring of `l`. -/
def hasSub (pat : List Char) : List Char → Bool
  | [] => pat.isEmpty
  | c :: cs => pat.isPrefixOf (c :: cs) || hasSub pat cs

/-- The character list of the word-splitting pipeline (`pyWords` without the
final `String.mk`). -/
def pwChars (l : List Char) : List (List Char) :=
  (wordsCore l).filter (fun w => !w.isEmpty)

/-- The persisted chat thread for `(paragraph_id, advice_key)`, if any
(mirrors the membership tests in lines 298–299). -/
def threadLookup (st : EngineState) (pid akey : String) : Option (List Msg) :=
  match dictGet st.chatHistory pid with
  | some inner => dictGet inner akey
  | none => none

/-- The `base_history` of `paragraph_reply` (lines 298–305): the persisted
thread if present, else the fresh 3-message seed. -/
def baseThread (st : EngineState) (pid akey ptext extract : String) : List Msg :=
  (threadLookup st pid akey).getD (seedHistory ptext extract akey)

/-- A strictly alternating run of user/assistant pairs (the turns a thread
gains after its seed). -/
def altTail : List Msg → Bool
  | [] => true
  | u :: a :: rest => u.role = "user" && a.role = "assistant" && altTail rest
  | _ => false

/-- One engine operation, as a relation on states (the Python methods of
`OpenAIBasicAdvisor`, each with arbitrary arguments and arbitrary
collaborator behaviour; the post-state of a raising call is the state at the
moment of the raise). -/
inductive EngineStep : EngineState → EngineState → Prop where
  | addCtx (st : EngineState) (ctx : String) : EngineStep st (addInitialContext st ctx)
  | whole (st : EngineState) (text : List (String × String)) :
      EngineStep st (processWholeText st text).2.1
  | score (pf : String → Option Rat) (oracle : Nat → String) (st : EngineState)
      (pid text : String) : EngineStep st (scoreParagraph pf oracle st pid text).2.1
  | add (jl : String → Option Json) (oracle : Nat → String) (st : EngineState)
      (pid text : String) : EngineStep st (addParagraph jl oracle st pid text).2.1
  | update (jl : String → Option Json) (oracle : Nat → String) (st : EngineState)
      (pid text : String) : EngineStep st (updateParagraph jl oracle st pid text).2.1
  | reply (oracle : Nat → String) (st : EngineState) (pid akey : String)
      (r : Option String) : EngineStep st (paragraphReply oracle st pid akey r).2.1
  | enhance (oracle : Nat → String) (st : EngineState) (pid? : Option String)
      (pids? : Option (List String)) :
      EngineStep st (enhanceParagraph oracle st pid? pids?).2.1

/-- States reachable from a freshly constructed advisor by any sequence of
engine operations. -/
inductive Reachable : EngineState → Prop where
  | init : Reachable initState
  | step {st st' : EngineState} : Reachable st → EngineStep st st' → Reachable st'

/-- Remove every (non-overlapping, left-to-right) occurrence of the two-char
marker `m m` — used to strip the `~~`/`**` markdown markers of
`markdown_diff` output. -/
def stripPair (m : Char) : List Char → List Char
  | [] => []
  | [c] => [c]
  | c1 :: c2 :: rest =>
    if c1 = m ∧ c2 = m then stripPair m rest else c1 :: stripPair m (c2 :: rest)

/-- Strip all markdown markers (`~~` then `**`) from a rendered diff. -/
def stripMarkers (s : String) : String :=
  String.mk (stripPair '*' (stripPair '~' s.toList))

/-- The word-level union implied by an edit script: `equal` words once (from
the old sequence), deleted words from the old sequence, inserted words from
the new sequence, `replace` contributing old then new, in script order. -/
def unionWords (oldW newW : List String) (ops : List (DTag × Nat × Nat × Nat × Nat)) :
    List String :=
  ops.foldl (fun acc op =>
    let (tag, i1, i2, j1, j2) := op
    match tag with
    | DTag.equal => acc ++ pySlice oldW i1 i2
    | DTag.del => acc ++ pySlice oldW i1 i2
    | DTag.ins => acc ++ pySlice newW j1 j2
    | DTag.replace => acc ++ pySlice oldW i1 i2 ++ pySlice newW j1 j2) []

/-- A string free of the markdown marker characters `~` and `*`. -/
def noMark (s : String) : Prop :=
  ∀ c ∈ s.toList, c ≠ '~' ∧ c ≠ '*'

instance (s : String) : Decidable (noMark s) := by
  unfold noMark
  infer_instance

/-- For identical sequences (`a = b = w`, full range `[0, n)`): `j` is
scanned in row `i` of the `find_longest_match` dynamic program. -/
def memProc (w : List String) (i j : Nat) : Prop :=
  j ∈ rowIndices w 0 w.length (w.getD i "")

instance (w : List String) (i j : Nat) : Decidable (memProc w i j) := by
  unfold memProc; infer_instance

/-- The exact value of the `j2len` chain table of `find_longest_match` on
identical sequences over the full range: length of the run of scanned
matches ending at `(i, j)`. -/
def chainLen (w : List String) : Nat → Nat → Nat
  | 0, j => if memProc w 0 j then 1 else 0
  | i + 1, j =>
    if memProc w (i + 1) j then
      (if 0 < j then chainLen w i (j - 1) else 0) + 1
    else 0

/-- A sample engine state used by concrete scenarios: project context set,
one stored paragraph `"q1"`, no advice, no threads. -/
def sampleState : EngineState :=
  { chatHistory := [], paragraphs := [("q1", "text one")], advices := [],
    initialContext := some "ctx" }

/-- Like `sampleState`, but with one advice item recorded for `"q1"`. -/
def sampleAdvState : EngineState :=
  { chatHistory := [], paragraphs := [("q1", "text one")],
    advices := [("q1", [("adv", "extract one")])], initialContext := some "ctx" }

/-- A concrete model response that is a two-key JSON object wrapping two
advice lists. -/
def twoKeyResponse : String :=
  "\x7b\x22first\x22: [\x7b\x22extract\x22: \x22e1\x22, \x22advice\x22: \x22a1\x22\x7d], \x22second\x22: [\x7b\x22extract\x22: \x22e2\x22, \x22advice\x22: \x22a2\x22\x7d]\x7d"

/-- The parse of `twoKeyResponse`. -/
def twoKeyParsed : Json :=
  Json.obj
    [("first", Json.arr [Json.obj [("extract", Json.str "e1"), ("advice", Json.str "a1")]]),
     ("second", Json.arr [Json.obj [("extract", Json.str "e2"), ("advice", Json.str "a2")]])]

/-- A concrete model response that is a single-key JSON object wrapping an
(empty) advice list. -/
def oneKeyResponse : String := "\x7b\x22advices\x22: []\x7d"

/-- The parse of `oneKeyResponse`. -/
def oneKeyParsed : Json := Json.obj [("advices", Json.arr [])]

/-- `json.loads` restricted to the two concrete documents above (both are
valid JSON; everything else is treated as a decode failure). -/
def c5Parser : String → Option Json := fun s =>
  if s = twoKeyResponse then some twoKeyParsed
  else if s = oneKeyResponse then some oneKeyParsed
  else none

/-- A structurally good chat thread for advice key `akey`: the three seed
messages (for some paragraph text and extract) followed by strictly
alternating user/assistant pairs. -/
def GoodThread (akey : String) (t : List Msg) : Prop :=
  ∃ p e tail, t = seedHistory p e akey ++ tail ∧ altTail tail = true

/-- The chat-thread store invariant: every persisted thread is structurally
good for the advice key it is stored under. -/
def ChatInv (st : EngineState) : Prop :=
  ∀ pid inner, dictGet st.chatHistory pid = some inner →
    ∀ akey t, dictGet inner akey = some t → GoodThread akey t

/-- A concrete engine state reached by: set context, add paragraph `"q1"`
(with the two-key model response), then reply to advice `"a2"`. -/
def c10State : EngineState :=
  (paragraphReply (fun _ => "resp")
    (addParagraph c5Parser (fun _ => twoKeyResponse)
      (addInitialContext initState "ctx") "q1" "text one").2.1
    "q1" "a2" (some "ok")).2.1

/-- The thread persisted in `c10State` for `("q1", "a2")`. -/
def c10Thread : List Msg :=
  (dictGet ((dictGet c10State.chatHistory "q1").getD []) "a2").getD []

/-- The chunk strings one opcode contributes to `markdown_diff`'s `result`
list. -/
def opChunkOf (oldW newW : List String) (op : DTag × Nat × Nat × Nat × Nat) : List String :=
  let (tag, i1, i2, j1, j2) := op
  match tag with
  | DTag.equal => pySlice oldW i1 i2
  | DTag.del => ["~~" ++ joinSpace (pySlice oldW i1 i2) ++ "~~"]
  | DTag.ins => ["**" ++ joinSpace (pySlice newW j1 j2) ++ "**"]
  | DTag.replace => ["~~" ++ joinSpace (pySlice oldW i1 i2) ++ "~~",
      "**" ++ joinSpace (pySlice newW j1 j2) ++ "**"]

/-- The words one opcode contributes to the word-level union. -/
def opSliceOf (oldW newW : List String) (op : DTag × Nat × Nat × Nat × Nat) : List String :=
  let (tag, i1, i2, j1, j2) := op
  match tag with
  | DTag.equal => pySlice oldW i1 i2
  | DTag.del => pySlice oldW i1 i2
  | DTag.ins => pySlice newW j1 j2
  | DTag.replace => pySlice oldW i1 i2 ++ pySlice newW j1 j2

/-- The character list of a `joinSpace` result: the chunks' character lists
interleaved with single spaces. -/
def interSpace : List (List Char) → List Char
  | [] => []
  | [c] => c
  | c :: rest => c ++ ' ' :: interSpace rest

/-! # Theorems -/

/-! ## Association-list (Python dict) lemmas -/

theorem dictGet_cons {α : Type} (k' : String) (v : α) (d : List (String × α)) (k : String) :
    dictGet ((k', v) :: d) k = if k' = k then some v else dictGet d k := by
  by_cases h : k' = k <;> simp [dictGet, List.find?_cons, h]

theorem dictGet_dictSet_self {α : Type} (d : List (String × α)) (k : String) (v : α) :
    dictGet (dictSet d k v) k = some v := by
  induction d with
  | nil => simp [dictSet, dictGet]
  | cons p d ih =>
    obtain ⟨k0, v0⟩ := p
    by_cases h : k0 = k
    · simp [dictSet, h, dictGet_cons]
    · simp [dictSet, h, dictGet_cons, ih]

theorem dictGet_dictSet_ne {α : Type} (d : List (String × α)) (k k' : String) (v : α)
    (h : k ≠ k') : dictGet (dictSet d k v) k' = dictGet d k' := by
  induction d with
  | nil => simp [dictSet, dictGet_cons, dictGet, h]
  | cons p d ih =>
    obtain ⟨k0, v0⟩ := p
    by_cases hp : k0 = k
    · subst hp
      simp [dictSet, dictGet_cons, h]
    · simp [dictSet, hp, dictGet_cons, ih]

theorem getOrCreate_of_some {α : Type} (d : List (String × α)) (k : String) (dflt v : α)
    (h : dictGet d k = some v) : getOrCreate d k dflt = (v, d) := by
  simp [getOrCreate, h]

/-! ## C7 — `add_paragraph` precondition -/

/-- C7: for every engine in which ProjectContext has never been set to a
non-empty value (so `initial_context` is `None` or the falsy empty string),
`add_paragraph` fails with the precondition `AssertionError` before invoking
the completion collaborator (empty call log) and before mutating any stored
state (post-state equals pre-state). -/
theorem C7_add_requires_context (jl : String → Option Json) (oracle : Nat → String)
    (st : EngineState) (pid text : String)
    (h : st.initialContext = none ∨ st.initialContext = some "") :
    addParagraph jl oracle st pid text =
      (Except.error (PyErr.assertionError
        "You must provide an initial context before adding a paragraph."), st, []) := by
  rcases h with h | h <;> simp [addParagraph, h]

/-- Witness for C7 at the freshly initialized engine. -/
theorem C7_add_requires_context_witness :
    (initState.initialContext = none ∨ initState.initialContext = some "") ∧
      addParagraph (fun _ => none) (fun _ => "") initState "q1" "Some text." =
        (Except.error (PyErr.assertionError
          "You must provide an initial context before adding a paragraph."), initState, []) :=
  ⟨Or.inl rfl, C7_add_requires_context (fun _ => none) (fun _ => "") initState "q1" "Some text."
    (Or.inl rfl)⟩

/-! ## C6 — `update_paragraph` on a never-seen id -/

/-- C6: for every paragraph id not present in the stored paragraph map,
`update_paragraph(id, text)` behaves identically to `add_paragraph(id, text)`
— same returned advice, same post-state (stored paragraph text and AdviceSet
entries included), same collaborator calls. -/
theorem C6_update_absent_eq_add (jl : String → Option Json) (oracle : Nat → String)
    (st : EngineState) (pid text : String)
    (h : dictGet st.paragraphs pid = none) :
    updateParagraph jl oracle st pid text = addParagraph jl oracle st pid text := by
  simp [updateParagraph, h]

/-- Witness for C6: a context-initialized engine with no paragraphs. -/
theorem C6_update_absent_eq_add_witness :
    dictGet (addInitialContext initState "Build a house.").paragraphs "q1" = none ∧
      updateParagraph (fun _ => some (Json.arr [])) (fun _ => "resp")
          (addInitialContext initState "Build a house.") "q1" "The house." =
        addParagraph (fun _ => some (Json.arr [])) (fun _ => "resp")
          (addInitialContext initState "Build a house.") "q1" "The house." :=
  ⟨rfl, C6_update_absent_eq_add (fun _ => some (Json.arr [])) (fun _ => "resp")
    (addInitialContext initState "Build a house.") "q1" "The house." rfl⟩

/-! ## C1 — batch `enhance_paragraph` validation order -/

/-- The batch loop of `enhance_paragraph` on a list whose first missing id is
`bad`: it raises the not-found error naming `bad` after having made exactly
one collaborator call per preceding (existing) id. -/
theorem enhanceLoop_first_missing (oracle : Nat → String) (st : EngineState)
    (bad : String) (rest : List String) :
    ∀ (pre : List String) (acc : List String) (log : List (List Msg)),
      (∀ p ∈ pre, (dictGet st.paragraphs p).isSome) →
      dictGet st.paragraphs bad = none →
      ∃ log', enhanceLoop oracle st (pre ++ bad :: rest) acc log =
          (Except.error (PyErr.valueError ("Paragraph ID " ++ bad ++ " does not exist.")), log') ∧
        log'.length = log.length + pre.length := by
  intro pre
  induction pre with
  | nil =>
    intro acc log _ hbad
    refine ⟨log, ?_, by simp⟩
    simp [enhanceLoop, hbad]
  | cons p pre ih =>
    intro acc log hpre hbad
    obtain ⟨ptext, hp⟩ : ∃ t, dictGet st.paragraphs p = some t := by
      have := hpre p (by simp)
      cases hsome : dictGet st.paragraphs p with
      | none => rw [hsome] at this; simp at this
      | some t => exact ⟨t, rfl⟩
    obtain ⟨log', h1, h2⟩ := ih (acc ++ [pyStrip (oracle log.length)])
      (log ++ [[⟨"system", enhanceSystemPrompt⟩, ⟨"user", ptext⟩]])
      (fun q hq => hpre q (by simp [hq])) hbad
    refine ⟨log', ?_, ?_⟩
    · simpa [enhanceLoop, hp, openaiCall] using h1
    · simp only [List.length_append, List.length_cons, List.length_nil] at h2 ⊢
      omega

/-- C1 is FALSE as stated: with only `"q1"` stored,
`enhance_paragraph(paragraph_ids=["q1","q2"])` raises the not-found error
naming `"q2"`, but the completion collaborator has been invoked once (for
`"q1"`), not zero times — validation happens inside the loop, not before any
model call. -/
theorem C1_counterexample :
    (enhanceParagraph (fun _ => "ENHANCED") sampleState none (some ["q1", "q2"])).1 =
      Except.error (PyErr.valueError "Paragraph ID q2 does not exist.") ∧
    (enhanceParagraph (fun _ => "ENHANCED") sampleState none (some ["q1", "q2"])).2.2.length = 1 := by
  constructor <;> rfl

/-- C1 (amended): if the id list is `pre ++ bad :: rest` where every id of
`pre` is stored and `bad` is not, the call raises the not-found error naming
`bad` (the first missing id), leaves the state unchanged, and invokes the
completion collaborator exactly once per id of `pre` — ids are validated one
at a time, interleaved with the model calls, rather than all before the
first call; the text generated for the preceding ids is discarded when the
error propagates. -/
theorem C1_amended_first_missing (oracle : Nat → String) (st : EngineState)
    (pre : List String) (bad : String) (rest : List String)
    (hpre : ∀ p ∈ pre, (dictGet st.paragraphs p).isSome)
    (hbad : dictGet st.paragraphs bad = none) :
    (enhanceParagraph oracle st none (some (pre ++ bad :: rest))).1 =
        Except.error (PyErr.valueError ("Paragraph ID " ++ bad ++ " does not exist.")) ∧
      (enhanceParagraph oracle st none (some (pre ++ bad :: rest))).2.1 = st ∧
      (enhanceParagraph oracle st none (some (pre ++ bad :: rest))).2.2.length = pre.length := by
  obtain ⟨log', h1, h2⟩ := enhanceLoop_first_missing oracle st bad rest pre [] [] hpre hbad
  simp [enhanceParagraph, h1, h2]

/-- Witness for C1 (amended) at the counterexample scenario. -/
theorem C1_amended_first_missing_witness :
    (∀ p ∈ ["q1"], (dictGet sampleState.paragraphs p).isSome) ∧
    dictGet sampleState.paragraphs "q2" = none ∧
    (enhanceParagraph (fun _ => "ENHANCED") sampleState
        none (some (["q1"] ++ "q2" :: []))).2.2.length = ["q1"].length := by
  refine ⟨?_, rfl, ?_⟩
  · intro p hp
    simp only [List.mem_singleton] at hp
    subst hp
    rfl
  · exact (C1_amended_first_missing (fun _ => "ENHANCED") sampleState ["q1"] "q2" []
      (by intro p hp; simp only [List.mem_singleton] at hp; subst hp; rfl) rfl).2.2

/-! ## C2 — `score_paragraph` after exhausting parse retries -/

/-- C2 names a real bug: when every response fails to parse as a float,
`score_paragraph` makes its 3 parse attempts (and a 4th, never-parsed,
collaborator call) and then executes `return score` with `score` never
assigned — the `while` loop has no `else` raising a decode error (unlike
`add_paragraph`/`update_paragraph`), so the caller gets `UnboundLocalError`,
not the decoding failure the claim (and the spec) describe.  State is left
unmutated.  Evaluated here at a concrete failing input. -/
theorem C2_score_unbound_local :
    (scoreParagraph (fun _ => none) (fun _ => "not a float") sampleState "q1"
        "Some paragraph.").1 = Except.error (PyErr.unboundLocalError "score") ∧
      (scoreParagraph (fun _ => none) (fun _ => "not a float") sampleState "q1"
        "Some paragraph.").2.1 = sampleState ∧
      (scoreParagraph (fun _ => none) (fun _ => "not a float") sampleState "q1"
        "Some paragraph.").2.2.length = 4 :=
  ⟨rfl, rfl, rfl⟩

/-! ## C3 — retry counts of structured vs. plain completion -/

/-- The JSON retry loop under a parser that always fails: it returns `none`
after reissuing the identical message list once per remaining retry. -/
theorem jsonRetryLoop_allFail (jl : String → Option Json) (oracle : Nat → String)
    (msgs : List Msg) (h : ∀ s, jl s = none) :
    ∀ (r : Nat) (txt : String) (log : List (List Msg)),
      jsonRetryLoop jl oracle msgs r txt log = (none, log ++ List.replicate r msgs) := by
  intro r
  induction r with
  | zero => intro txt log; simp [jsonRetryLoop]
  | succ r ih =>
    intro txt log
    simp [jsonRetryLoop, h, openaiCall, ih, List.replicate_succ]

/-- C3 is FALSE as stated: with a parser that always fails, `add_paragraph`
invokes the completion collaborator 4 times (the initial call plus one per
retry; the last response is fetched but never parsed), not at most 3. -/
theorem C3_counterexample :
    (addParagraph (fun _ => none) (fun _ => "nonsense") sampleState "q1"
        "New text.").2.2.length = 4 ∧
      ¬ (addParagraph (fun _ => none) (fun _ => "nonsense") sampleState "q1"
        "New text.").2.2.length ≤ 3 := by
  have h4 : (addParagraph (fun _ => none) (fun _ => "nonsense") sampleState "q1"
      "New text.").2.2.length = 4 := rfl
  exact ⟨h4, by rw [h4]; omega⟩

/-- C3 (amended): when every response fails to parse as JSON, the structured
operations `add_paragraph` and `update_paragraph` invoke the completion
collaborator exactly 4 times — the initial call plus 3 retries, each with
the identical message list, the 4th response being fetched but never parsed
— make 3 parse attempts, raise the terminal decode `ValueError`, and leave
the state unchanged (given the prior-advice entry already exists for the
update case); plain-completion operations (the model call of
`paragraph_reply`, `enhance_paragraph`) invoke the collaborator exactly
once and never retry. -/
theorem C3_amended_retry_counts :
    (∀ (jl : String → Option Json) (oracle : Nat → String) (st : EngineState)
        (pid text ictx : String) (qc : QContext),
      st.initialContext = some ictx → ictx ≠ "" →
      dictGet PARAGRAPH_CONTEXTS pid = some qc → (∀ s, jl s = none) →
      addParagraph jl oracle st pid text =
        (Except.error (PyErr.valueError
            "Failed to decode JSON response from OpenAI for add_paragraph."), st,
          List.replicate 4 [⟨"system", addSystemPrompt qc ictx⟩, ⟨"user", text⟩])) ∧
    (∀ (jl : String → Option Json) (oracle : Nat → String) (st : EngineState)
        (pid text old ictx : String) (amap : List (String × String)) (qc : QContext),
      dictGet st.paragraphs pid = some old →
      dictGet st.advices pid = some amap →
      st.initialContext = some ictx →
      dictGet PARAGRAPH_CONTEXTS pid = some qc → (∀ s, jl s = none) →
      updateParagraph jl oracle st pid text =
        (Except.error (PyErr.valueError
            "Failed to decode JSON response from OpenAI for update_paragraph."), st,
          List.replicate 4 [⟨"system", updateSystemPrompt qc (oldAdviceText amap) ictx⟩,
            ⟨"user", markdown_diff old text⟩])) ∧
    (∀ (oracle : Nat → String) (st : EngineState) (pid akey reply ptext extract : String)
        (amap : List (String × String)),
      dictGet st.paragraphs pid = some ptext →
      dictGet st.advices pid = some amap →
      dictGet amap akey = some extract →
      (paragraphReply oracle st pid akey (some reply)).2.2.length = 1) ∧
    (∀ (oracle : Nat → String) (st : EngineState) (pid ptext : String),
      dictGet st.paragraphs pid = some ptext →
      (enhanceParagraph oracle st (some pid) none).2.2.length = 1) := by
  refine ⟨?_, ?_, ?_, ?_⟩
  · intro jl oracle st pid text ictx qc hic hne hqc hjl
    cases hic' : st.initialContext with
    | none => rw [hic'] at hic; cases hic
    | some s =>
      rw [hic'] at hic; cases hic
      simp [addParagraph, hic', hne, hqc, openaiCall, jsonRetryLoop_allFail _ _ _ hjl,
        List.replicate_succ]
  · intro jl oracle st pid text old ictx amap qc hold hadv hic hqc hjl
    cases st with
    | mk ch ps ad ic =>
      simp only [EngineState.initialContext] at hic
      subst hic
      simp [updateParagraph, hold, getOrCreate, hadv, hqc, openaiCall,
        jsonRetryLoop_allFail _ _ _ hjl, List.replicate_succ]
  · intro oracle st pid akey reply ptext extract amap hp hadv hak
    simp only [paragraphReply, hp, getOrCreate, hadv, hak, openaiCall]
    repeat' split
    all_goals simp
  · intro oracle st pid ptext hp
    simp [enhanceParagraph, hp, openaiCall]

/-- Witness for C3 (amended): concrete 4-call structured failures and
1-call plain completions. -/
theorem C3_amended_retry_counts_witness :
    (addParagraph (fun _ => none) (fun _ => "x") sampleState "q1" "t").2.2.length = 4 ∧
    (updateParagraph (fun _ => none) (fun _ => "x") sampleAdvState "q1" "t2").2.2.length = 4 ∧
    (paragraphReply (fun _ => "resp") sampleAdvState "q1" "adv" (some "r")).2.2.length = 1 ∧
    (enhanceParagraph (fun _ => "resp") sampleState (some "q1") none).2.2.length = 1 := by
  refine ⟨?_, ?_, ?_, ?_⟩
  · have h := C3_amended_retry_counts.1 (fun _ => none) (fun _ => "x") sampleState
      "q1" "t" "ctx" _ rfl (by decide) rfl (fun _ => rfl)
    rw [h]
    simp
  · have h := C3_amended_retry_counts.2.1 (fun _ => none) (fun _ => "x") sampleAdvState
      "q1" "t2" "text one" "ctx" _ _ rfl rfl rfl rfl (fun _ => rfl)
    rw [h]
    simp
  · exact C3_amended_retry_counts.2.2.1 (fun _ => "resp") sampleAdvState
      "q1" "adv" "r" "text one" "extract one" _ rfl rfl rfl
  · exact C3_amended_retry_counts.2.2.2 (fun _ => "resp") sampleState "q1" "text one" rfl

/-! ## C4 — the `clean_outputs` cleanup pass -/

theorem hasSub_iff_infix (pat : List Char) : ∀ l : List Char, hasSub pat l = true ↔ pat <:+: l := by
  intro l
  induction l with
  | nil => simp [hasSub, List.infix_nil, List.isEmpty_iff]
  | cons c cs ih =>
    simp [hasSub, List.isPrefixOf_iff_prefix, ih, List.infix_cons_iff]

theorem hasSub_false_mono {pat X l : List Char} (hX : X <:+: l)
    (h : hasSub pat l = false) : hasSub pat X = false := by
  rw [← Bool.not_eq_true, hasSub_iff_infix] at h ⊢
  exact fun hc => h (hc.trans hX)

theorem pyStripList_infix (l : List Char) : pyStripList l <:+: l := by
  unfold pyStripList
  have h1 : l.dropWhile isPySpace <:+ l := List.dropWhile_suffix isPySpace
  have h2 : ((l.dropWhile isPySpace).reverse.dropWhile isPySpace) <:+
      (l.dropWhile isPySpace).reverse := List.dropWhile_suffix isPySpace
  have h3 : ((l.dropWhile isPySpace).reverse.dropWhile isPySpace).reverse <+:
      ((l.dropWhile isPySpace).reverse).reverse := List.reverse_prefix.mpr h2
  rw [List.reverse_reverse] at h3
  exact h3.isInfix.trans h1.isInfix

theorem dropWhile_dropWhile (p : Char → Bool) : ∀ l : List Char,
    List.dropWhile p (List.dropWhile p l) = List.dropWhile p l := by
  intro l
  induction l with
  | nil => rfl
  | cons c cs ih =>
    by_cases h : p c
    · simp [List.dropWhile_cons, h, ih]
    · simp [List.dropWhile_cons, h]

theorem dropWhile_append_singleton (p : Char → Bool) (c : Char) (hc : p c = false) :
    ∀ xs : List Char, List.dropWhile p (xs ++ [c]) = List.dropWhile p xs ++ [c] := by
  intro xs
  induction xs with
  | nil => simp [List.dropWhile_cons, hc]
  | cons x xs ih =>
    by_cases h : p x
    · simp [List.dropWhile_cons, h, ih]
    · simp [List.dropWhile_cons, h]

theorem pyStripList_idem (l : List Char) : pyStripList (pyStripList l) = pyStripList l := by
  set p := isPySpace
  set A := l.dropWhile p with hA
  set B := A.reverse.dropWhile p with hB
  have hXrev : (B.reverse).reverse = B := List.reverse_reverse B
  have hb : List.dropWhile p B = B := by rw [hB]; exact dropWhile_dropWhile p A.reverse
  have ha : List.dropWhile p B.reverse = B.reverse := by
    cases hAc : A with
    | nil => simp [hB, hAc]
    | cons c A' =>
      have hc : p c = false := by
        have := List.head?_dropWhile_not p l
        rw [← hA, hAc] at this
        simpa using this
      have : B = A'.reverse.dropWhile p ++ [c] := by
        rw [hB, hAc, List.reverse_cons, dropWhile_append_singleton p c hc]
      rw [this]
      simp [List.dropWhile_cons, hc]
  show ((B.reverse.dropWhile p).reverse.dropWhile p).reverse = B.reverse
  rw [ha, hXrev, hb]

theorem subJsonF_id : ∀ (f : Nat) (l : List Char),
    hasSub ['j', 's', 'o', 'n'] l = false → subJsonF f l = l := by
  intro f
  induction f with
  | zero => intro l _; rfl
  | succ f ih =>
    intro l h
    rw [subJsonF.eq_def]
    split
    · rfl
    · rfl
    · exfalso
      simp [hasSub, List.isPrefixOf] at h
    · rename_i f2 c rest hne heq
      injection heq with hf
      subst hf
      simp only [hasSub, Bool.or_eq_false_iff] at h
      rw [ih _ h.2]

theorem subTicksF_id : ∀ (f : Nat) (l : List Char),
    hasSub ['\x60', '\x60', '\x60'] l = false → subTicksF f l = l := by
  intro f
  induction f with
  | zero => intro l _; rfl
  | succ f ih =>
    intro l h
    rw [subTicksF.eq_def]
    split
    · rfl
    · rfl
    · exfalso
      simp [hasSub, List.isPrefixOf] at h
    · rename_i f2 c rest hne heq
      injection heq with hf
      subst hf
      simp only [hasSub, Bool.or_eq_false_iff] at h
      rw [ih _ h.2]

/-- C4 is FALSE as stated: the cleanup pass is not idempotent (a second
application strips whitespace exposed by the first removal), and it deletes
the letters `json` inside the payload, not only a leading language tag. -/
theorem C4_counterexample :
    clean_outputs (clean_outputs "a json") ≠ clean_outputs "a json" ∧
      clean_outputs "[only json here]" = "[only  here]" ∧
      clean_outputs "[only json here]" ≠ "[only json here]" := by
  refine ⟨by decide, by decide, by decide⟩

/-- C4 (amended): `clean_outputs` strips leading/trailing whitespace and then
removes every occurrence of the letters `json` (with any following newlines)
and every occurrence of the code-fence delimiter anywhere in the string —
including inside the payload — so it is not idempotent in general; on
strings containing neither `json` nor the fence it coincides with plain
whitespace-stripping and is idempotent. -/
theorem C4_amended_cleanup (s : String)
    (hj : hasSub ['j', 's', 'o', 'n'] s.toList = false)
    (ht : hasSub ['\x60', '\x60', '\x60'] s.toList = false) :
    clean_outputs s = pyStrip s ∧ clean_outputs (clean_outputs s) = clean_outputs s := by
  have hinf := pyStripList_infix s.toList
  have hj1 := hasSub_false_mono hinf hj
  have ht1 := hasSub_false_mono hinf ht
  have h1 : clean_outputs s = pyStrip s := by
    unfold clean_outputs pyStrip subJson subTicks
    rw [subJsonF_id _ _ hj1, subTicksF_id _ _ ht1]
  have key : pyStripList (pyStrip s).toList = pyStripList s.toList := pyStripList_idem s.toList
  have h2 : clean_outputs (pyStrip s) = clean_outputs s := by
    unfold clean_outputs
    rw [key]
  exact ⟨h1, by rw [h1, h2, h1]⟩

/-- Witness for C4 (amended) at a marker-free string with surrounding
whitespace. -/
theorem C4_amended_cleanup_witness :
    hasSub ['j', 's', 'o', 'n'] (" hello there ").toList = false ∧
    hasSub ['\x60', '\x60', '\x60'] (" hello there ").toList = false ∧
    clean_outputs " hello there " = pyStrip " hello there " ∧
    clean_outputs (clean_outputs " hello there ") = clean_outputs " hello there " := by
  refine ⟨by decide, by decide, ?_, ?_⟩
  · exact (C4_amended_cleanup " hello there " (by decide) (by decide)).1
  · exact (C4_amended_cleanup " hello there " (by decide) (by decide)).2

/-! ## C5 — single-key unwrapping of structured responses -/

/-- C5 names a real bug: the unwrap in `add_paragraph` is
`advice.popitem()[1]` guarded only by `isinstance(advice, dict)`, although
its own comment says "if it's a dict with len 1, pop the value".  At a
two-key object response, `add_paragraph` still unwraps, taking the LAST
key's value (here the `"second"` list, which is also what gets stored in
the advice map); and `update_paragraph` never unwraps at all, returning even
a single-key object as-is.  Both evaluated at concrete failing inputs. -/
theorem C5_unwrap_behaviour :
    (addParagraph c5Parser (fun _ => twoKeyResponse) sampleState "q1" "t").1 =
      Except.ok (Json.arr [Json.obj [("extract", Json.str "e2"), ("advice", Json.str "a2")]]) ∧
    (addParagraph c5Parser (fun _ => twoKeyResponse) sampleState "q1" "t").2.1.advices =
      [("q1", [("a2", "e2")])] ∧
    (updateParagraph c5Parser (fun _ => oneKeyResponse) sampleState "q1" "t").1 =
      Except.ok (Json.obj [("advices", Json.arr [])]) := by
  refine ⟨rfl, rfl, rfl⟩

/-! ## C8 — `paragraph_reply` with a reply appends two turns -/

/-- Post-state of a successful `paragraph_reply` with a reply: the thread
map for the paragraph gains (or replaces) the entry for the advice key with
the base thread extended by the user's reply and the assistant's response. -/
theorem paragraphReply_some_state (oracle : Nat → String) (st : EngineState)
    (pid akey reply ptext extract : String) (amap : List (String × String))
    (hp : dictGet st.paragraphs pid = some ptext)
    (hadv : dictGet st.advices pid = some amap)
    (hak : dictGet amap akey = some extract) :
    (paragraphReply oracle st pid akey (some reply)).2.1 =
      { st with chatHistory := (dictSet st.chatHistory pid
          (dictSet ((dictGet st.chatHistory pid).getD []) akey
            (baseThread st pid akey ptext extract ++
              [Msg.mk "user" reply, Msg.mk "assistant" (pyStrip (oracle 0))]))) } := by
  simp only [paragraphReply, hp, getOrCreate, hadv, hak, openaiCall]
  cases hch : dictGet st.chatHistory pid with
  | none =>
    simp only [baseThread, threadLookup, hch, Option.getD_none]
    split <;> simp
  | some inner =>
    cases hin : dictGet inner akey with
    | none =>
      simp only [baseThread, threadLookup, hch, hin, Option.getD_none, Option.getD_some]
      split <;> simp
    | some hth =>
      simp only [baseThread, threadLookup, hch, hin, Option.getD_some]
      split <;> simp

/-- C8: for a stored paragraph, a known advice key and a non-`None` reply,
`paragraph_reply` persists exactly the previous thread (the stored one, or
the fresh 3-message seed) extended by two turns — a user turn holding the
reply, then an assistant turn holding the completion response — so a thread
that held only the 3 seed messages grows to 5 turns, and the persisted
thread always ends with role `"assistant"`. -/
theorem C8_reply_appends_two_turns (oracle : Nat → String) (st : EngineState)
    (pid akey reply ptext extract : String) (amap : List (String × String))
    (hp : dictGet st.paragraphs pid = some ptext)
    (hadv : dictGet st.advices pid = some amap)
    (hak : dictGet amap akey = some extract) :
    threadLookup (paragraphReply oracle st pid akey (some reply)).2.1 pid akey =
        some (baseThread st pid akey ptext extract ++
          [Msg.mk "user" reply, Msg.mk "assistant" (pyStrip (oracle 0))]) ∧
      (baseThread st pid akey ptext extract ++
          [Msg.mk "user" reply, Msg.mk "assistant" (pyStrip (oracle 0))]).length =
        (baseThread st pid akey ptext extract).length + 2 ∧
      (threadLookup st pid akey = none →
        (baseThread st pid akey ptext extract ++
          [Msg.mk "user" reply, Msg.mk "assistant" (pyStrip (oracle 0))]).length = 5) ∧
      ((baseThread st pid akey ptext extract ++
          [Msg.mk "user" reply, Msg.mk "assistant" (pyStrip (oracle 0))]).getLast?).map Msg.role =
        some "assistant" := by
  refine ⟨?_, by simp, ?_, ?_⟩
  · rw [paragraphReply_some_state oracle st pid akey reply ptext extract amap hp hadv hak]
    simp [threadLookup, dictGet_dictSet_self]
  · intro hnone
    simp [baseThread, hnone, seedHistory]
  · rw [List.getLast?_append]
    rfl

/-- Witness for C8 at a concrete engine with one advice item and no prior
thread. -/
theorem C8_reply_appends_two_turns_witness :
    dictGet sampleAdvState.paragraphs "q1" = some "text one" ∧
    threadLookup (paragraphReply (fun _ => "resp") sampleAdvState "q1" "adv"
        (some "ok")).2.1 "q1" "adv" =
      some (baseThread sampleAdvState "q1" "adv" "text one" "extract one" ++
        [Msg.mk "user" "ok", Msg.mk "assistant" (pyStrip ((fun _ => "resp") 0))]) ∧
    (threadLookup sampleAdvState "q1" "adv" = none →
      (baseThread sampleAdvState "q1" "adv" "text one" "extract one" ++
        [Msg.mk "user" "ok", Msg.mk "assistant" (pyStrip ((fun _ => "resp") 0))]).length = 5) := by
  have h := C8_reply_appends_two_turns (fun _ => "resp") sampleAdvState "q1" "adv" "ok"
    "text one" "extract one" [("adv", "extract one")] rfl rfl rfl
  exact ⟨rfl, h.1, h.2.2.1⟩

/-! ## C10 — invariant of the persisted chat-thread store -/

theorem storeAdvices_chatHistory (pid : String) : ∀ (items : List Json) (st : EngineState),
    (storeAdvices pid items st).2.chatHistory = st.chatHistory := by
  intro items
  induction items with
  | nil => intro st; rfl
  | cons adv rest ih =>
    intro st
    cases h1 : jsonSubscript adv "extract" >>= jsonAsStr with
    | error e => simp [storeAdvices, h1]
    | ok aext =>
      cases h2 : jsonSubscript adv "advice" >>= jsonAsStr with
      | error e => simp [storeAdvices, h1, h2]
      | ok akey => simp [storeAdvices, h1, h2, ih]

theorem scoreParagraph_state (pf : String → Option Rat) (oracle : Nat → String)
    (st : EngineState) (pid text : String) : (scoreParagraph pf oracle st pid text).2.1 = st := by
  unfold scoreParagraph
  repeat' (first | split | dsimp only [])
  all_goals rfl

theorem enhanceParagraph_state (oracle : Nat → String) (st : EngineState)
    (pid? : Option String) (pids? : Option (List String)) :
    (enhanceParagraph oracle st pid? pids?).2.1 = st := by
  unfold enhanceParagraph
  repeat' (first | split | dsimp only [])
  all_goals rfl

theorem addParagraph_chatHistory (jl : String → Option Json) (oracle : Nat → String)
    (st : EngineState) (pid text : String) :
    (addParagraph jl oracle st pid text).2.1.chatHistory = st.chatHistory := by
  unfold addParagraph
  repeat' (first | split | dsimp only [])
  all_goals try rfl
  all_goals {
    rename_i heq
    exact (congrArg (fun q => q.2.chatHistory) heq).symm.trans
      (storeAdvices_chatHistory pid _ _) }

theorem updateParagraph_chatHistory (jl : String → Option Json) (oracle : Nat → String)
    (st : EngineState) (pid text : String) :
    (updateParagraph jl oracle st pid text).2.1.chatHistory = st.chatHistory := by
  unfold updateParagraph
  split
  · exact addParagraph_chatHistory jl oracle st pid text
  · repeat' (first | split | dsimp only [])
    all_goals rfl

theorem chatInv_of_eq {st st' : EngineState} (h : st'.chatHistory = st.chatHistory)
    (hi : ChatInv st) : ChatInv st' := by
  intro pid inner hl ak t ht
  rw [h] at hl
  exact hi pid inner hl ak t ht

theorem altTail_append_pair (r x : String) : ∀ t, altTail t = true →
    altTail (t ++ [Msg.mk "user" r, Msg.mk "assistant" x]) = true
  | [], _ => by simp [altTail]
  | u :: a :: rest, h => by
    simp only [altTail, Bool.and_eq_true, decide_eq_true_eq] at h
    simp only [List.cons_append, altTail, Bool.and_eq_true, decide_eq_true_eq]
    exact ⟨⟨h.1.1, h.1.2⟩, altTail_append_pair r x rest h.2⟩
  | [u], h => by simp [altTail] at h

theorem altTail_even : ∀ t, altTail t = true → t.length % 2 = 0
  | [], _ => rfl
  | u :: a :: rest, h => by
    simp only [altTail, Bool.and_eq_true] at h
    have := altTail_even rest h.2
    simp only [List.length_cons]
    omega
  | [u], h => by simp [altTail] at h

theorem altTail_roles : ∀ t, altTail t = true →
    ∀ m ∈ t, m.role = "user" ∨ m.role = "assistant"
  | [], _ => by intro m hm; cases hm
  | u :: a :: rest, h => by
    simp only [altTail, Bool.and_eq_true, decide_eq_true_eq] at h
    intro m hm
    simp only [List.mem_cons] at hm
    rcases hm with rfl | rfl | hm
    · exact Or.inl h.1.1
    · exact Or.inr h.1.2
    · exact altTail_roles rest h.2 m hm
  | [u], h => by simp [altTail] at h

theorem getLast_append_altTail :
    ∀ (tail : List Msg), altTail tail = true → ∀ (pre : List Msg),
      pre.getLast?.map Msg.role = some "assistant" →
      (pre ++ tail).getLast?.map Msg.role = some "assistant"
  | [], _ => by intro pre hpre; simpa using hpre
  | u :: a :: rest, h => by
    intro pre hpre
    simp only [altTail, Bool.and_eq_true, decide_eq_true_eq] at h
    have hrgx : (pre ++ (u :: a :: rest)) = (pre ++ [u, a]) ++ rest := by simp
    rw [hrgx]
    apply getLast_append_altTail rest h.2
    rw [List.getLast?_append]
    simp [h.1.2]
  | [u], h => by simp [altTail] at h

theorem reachable_chatInv : ∀ {st : EngineState}, Reachable st → ChatInv st := by
  intro st h
  induction h with
  | init =>
    intro pid inner hl
    simp [initState, dictGet] at hl
  | @step s s' hr hst ih =>
    cases hst with
    | addCtx _ ctx => exact chatInv_of_eq rfl ih
    | whole _ text => exact chatInv_of_eq rfl ih
    | score pf oracle _ pid text =>
      exact chatInv_of_eq (by rw [scoreParagraph_state]) ih
    | add jl oracle _ pid text =>
      exact chatInv_of_eq (addParagraph_chatHistory jl oracle s pid text) ih
    | update jl oracle _ pid text =>
      exact chatInv_of_eq (updateParagraph_chatHistory jl oracle s pid text) ih
    | enhance oracle _ pid? pids? =>
      exact chatInv_of_eq (by rw [enhanceParagraph_state]) ih
    | reply oracle _ pid akey r =>
      cases hp : dictGet s.paragraphs pid with
      | none =>
        simp only [paragraphReply, hp]
        exact ih
      | some ptext =>
        obtain ⟨advMap, advices1, hoc⟩ :
            ∃ a b, getOrCreate s.advices pid [] = (a, b) :=
          ⟨_, _, rfl⟩
        cases hak : dictGet advMap akey with
        | none =>
          simp only [paragraphReply, hp, hoc, hak]
          exact chatInv_of_eq rfl ih
        | some extract =>
          cases r with
          | none =>
            simp only [paragraphReply, hp, hoc, hak]
            split <;> exact chatInv_of_eq rfl ih
          | some rep =>
            simp only [paragraphReply, hp, hoc, hak, openaiCall]
            split <;> {
              intro pid' inner' hl ak t ht
              simp only [EngineState.chatHistory] at hl
              by_cases hpp : pid = pid'
              · subst hpp
                rw [dictGet_dictSet_self] at hl
                cases hl
                by_cases hkk : akey = ak
                · subst hkk
                  rw [dictGet_dictSet_self] at ht
                  cases ht
                  cases hch : dictGet s.chatHistory pid with
                  | none =>
                    refine ⟨ptext, extract, [Msg.mk "user" rep,
                      Msg.mk "assistant" (pyStrip (oracle 0))], ?_, by simp [altTail]⟩
                    simp [hch]
                  | some innerOld =>
                    cases hin : dictGet innerOld akey with
                    | none =>
                      refine ⟨ptext, extract, [Msg.mk "user" rep,
                        Msg.mk "assistant" (pyStrip (oracle 0))], ?_, by simp [altTail]⟩
                      simp [hch, hin]
                    | some oldT =>
                      obtain ⟨p, e, tail, hts, htail⟩ := ih pid innerOld hch akey oldT hin
                      refine ⟨p, e, tail ++ [Msg.mk "user" rep,
                        Msg.mk "assistant" (pyStrip (oracle 0))], ?_,
                        altTail_append_pair _ _ tail htail⟩
                      simp [hch, hin, hts]
                · rw [dictGet_dictSet_ne _ _ _ _ hkk] at ht
                  cases hch : dictGet s.chatHistory pid with
                  | none =>
                    rw [hch] at ht
                    simp [dictGet] at ht
                  | some innerOld =>
                    rw [hch] at ht
                    exact ih pid innerOld hch ak t ht
              · rw [dictGet_dictSet_ne _ _ _ _ hpp] at hl
                exact ih pid' inner' hl ak t ht }

/-- C10: in every reachable engine state, every persisted chat thread starts
with exactly the three seed messages for its advice key (system persona,
user paragraph text, assistant restatement of extract and advice), continues
with strictly alternating user/assistant pairs (odd length `3 + 2k`), ends
with an assistant turn, and uses only the lowercase role strings — the
`"Assistant"`/`"You"` relabelling and the content swap exist only in the
returned display copies, never in the store. -/
theorem C10_thread_invariant (st : EngineState) (hreach : Reachable st)
    (pid : String) (inner : List (String × List Msg)) (akey : String) (t : List Msg)
    (hl : dictGet st.chatHistory pid = some inner)
    (ht : dictGet inner akey = some t) :
    GoodThread akey t ∧ t.length % 2 = 1 ∧ 3 ≤ t.length ∧
      t.getLast?.map Msg.role = some "assistant" ∧
      ∀ m ∈ t, m.role = "system" ∨ m.role = "user" ∨ m.role = "assistant" := by
  have hg := reachable_chatInv hreach pid inner hl akey t ht
  obtain ⟨p, e, tail, rfl, htail⟩ := hg
  have h3 : (seedHistory p e akey).length = 3 := rfl
  refine ⟨⟨p, e, tail, rfl, htail⟩, ?_, ?_, ?_, ?_⟩
  · have he := altTail_even tail htail
    rw [List.length_append, h3]
    omega
  · rw [List.length_append, h3]
    omega
  · exact getLast_append_altTail tail htail _ rfl
  · intro m hm
    rw [List.mem_append] at hm
    rcases hm with hm | hm
    · simp only [seedHistory, List.mem_cons, List.not_mem_nil, or_false] at hm
      rcases hm with rfl | rfl | rfl
      · exact Or.inl rfl
      · exact Or.inr (Or.inl rfl)
      · exact Or.inr (Or.inr rfl)
    · rcases altTail_roles tail htail m hm with h | h
      · exact Or.inr (Or.inl h)
      · exact Or.inr (Or.inr h)

/-- Witness for C10 at a concretely reached state with one persisted
thread. -/
theorem C10_thread_invariant_witness :
    Reachable c10State ∧ c10Thread.length % 2 = 1 ∧ 3 ≤ c10Thread.length ∧
      c10Thread.getLast?.map Msg.role = some "assistant" := by
  have hr : Reachable c10State :=
    Reachable.step
      (Reachable.step
        (Reachable.step Reachable.init (EngineStep.addCtx initState "ctx"))
        (EngineStep.add c5Parser (fun _ => twoKeyResponse)
          (addInitialContext initState "ctx") "q1" "text one"))
      (EngineStep.reply (fun _ => "resp")
        (addParagraph c5Parser (fun _ => twoKeyResponse)
          (addInitialContext initState "ctx") "q1" "text one").2.1
        "q1" "a2" (some "ok"))
  have h := C10_thread_invariant c10State hr "q1"
    ((dictGet c10State.chatHistory "q1").getD []) "a2" c10Thread rfl rfl
  exact ⟨hr, h.2.1, h.2.2.1, h.2.2.2.1⟩

/-! ## C9 — `markdown_diff` rendering

### Generic fold helpers -/

theorem foldl_filter_eq {α σ : Type} (p : α → Bool) (f : σ → α → σ) :
    ∀ (l : List α) (init : σ),
      (l.filter p).foldl f init = l.foldl (fun s a => if p a then f s a else s) init
  | [], _ => rfl
  | a :: l, init => by
    by_cases h : p a <;>
      simp [List.filter_cons, h, foldl_filter_eq p f l]

theorem foldl_range_inv {σ : Type} (f : σ → Nat → σ) (P : Nat → σ → Prop) :
    ∀ (n : Nat) (init : σ), P 0 init → (∀ k s, k < n → P k s → P (k + 1) (f s k)) →
      P n ((List.range n).foldl f init) := by
  intro n
  induction n with
  | zero => intro init h0 _; exact h0
  | succ n ih =>
    intro init h0 hs
    rw [show List.range (n + 1) = List.range n ++ [n] by simpa using List.range_succ (n := n),
      List.foldl_append]
    simp only [List.foldl_cons, List.foldl_nil]
    exact hs n _ (Nat.lt_succ_self n)
      (ih init h0 (fun k s hk hP => hs k s (Nat.lt_succ_of_lt hk) hP))

theorem foldl_append_flatMap {α β : Type} (g : α → List β) :
    ∀ (l : List α) (acc : List β),
      l.foldl (fun r x => r ++ g x) acc = acc ++ l.flatMap g
  | [], acc => by simp
  | x :: l, acc => by
    simp only [List.foldl_cons, List.flatMap_cons, foldl_append_flatMap g l, List.append_assoc]

/-! ### `find_longest_match` on identical sequences -/

theorem rowIndices_full (w : List String) (x : String) :
    rowIndices w 0 w.length x = b2j w x := by
  unfold rowIndices
  have h1 : (b2j w x).takeWhile (fun j => decide (j < w.length)) = b2j w x := by
    apply List.takeWhile_eq_self_iff.mpr
    intro a ha
    unfold b2j at ha
    split at ha
    · cases ha
    · simp only [List.mem_filter, List.mem_range] at ha
      simpa using ha.1
  rw [h1]
  apply List.filter_eq_self.mpr
  intro a _
  simp

theorem mem_b2j {w : List String} {x : String} {j : Nat} :
    j ∈ b2j w x ↔
      ¬(200 ≤ w.length ∧ w.length / 100 + 1 < w.count x) ∧ j < w.length ∧ w.getD j "" = x := by
  unfold b2j
  split
  · rename_i h
    simp [h]
  · rename_i h
    simp [List.mem_filter, List.mem_range, h, and_comm]

theorem memProc_iff {w : List String} {i j : Nat} :
    memProc w i j ↔ j ∈ b2j w (w.getD i "") := by
  unfold memProc
  rw [rowIndices_full]

theorem memProc_lt {w : List String} {i j : Nat} (h : memProc w i j) : j < w.length :=
  (mem_b2j.mp (memProc_iff.mp h)).2.1

theorem memProc_diag_left {w : List String} {i j : Nat} (h : memProc w i j) : memProc w j j := by
  rw [memProc_iff, mem_b2j] at h ⊢
  obtain ⟨hpop, hjn, hx⟩ := h
  rw [← hx] at hpop
  exact ⟨hpop, hjn, rfl⟩

theorem memProc_diag_right {w : List String} {i j : Nat} (h : memProc w i j)
    (hi : i < w.length) : memProc w i i := by
  rw [memProc_iff, mem_b2j] at h ⊢
  exact ⟨h.1, hi, rfl⟩

theorem chainLen_zero_eq (w : List String) (j : Nat) :
    chainLen w 0 j = if memProc w 0 j then 1 else 0 := by
  rw [chainLen]

theorem chainLen_succ_eq (w : List String) (i j : Nat) :
    chainLen w (i + 1) j =
      if memProc w (i + 1) j then (if 0 < j then chainLen w i (j - 1) else 0) + 1 else 0 := by
  rw [chainLen]

theorem chainLen_le (w : List String) : ∀ i j, chainLen w i j ≤ i + 1
  | 0, j => by rw [chainLen_zero_eq]; split <;> simp
  | i + 1, j => by
    rw [chainLen_succ_eq]
    split
    · split
      · have := chainLen_le w i (j - 1)
        omega
      · omega
    · omega

theorem chainLen_D1 (w : List String) : ∀ i j, j ≤ i → chainLen w i j ≤ chainLen w j j := by
  intro i
  induction i with
  | zero =>
    intro j hj
    have : j = 0 := Nat.le_zero.mp hj
    subst this
    exact Nat.le_refl _
  | succ i ih =>
    intro j hj
    by_cases hm : memProc w (i + 1) j
    · have hmj : memProc w j j := memProc_diag_left hm
      cases j with
      | zero =>
        have h1 : chainLen w (i + 1) 0 = 1 := by
          rw [chainLen_succ_eq, if_pos hm]
          simp
        have h2 : chainLen w 0 0 = 1 := by
          rw [chainLen_zero_eq, if_pos hmj]
        omega
      | succ j' =>
        have h1 : chainLen w (i + 1) (j' + 1) = chainLen w i j' + 1 := by
          rw [chainLen_succ_eq, if_pos hm]
          simp
        have h2 : chainLen w (j' + 1) (j' + 1) = chainLen w j' j' + 1 := by
          rw [chainLen_succ_eq, if_pos hmj]
          simp
        have h3 := ih j' (by omega)
        omega
    · have h0 : chainLen w (i + 1) j = 0 := by
        rw [chainLen_succ_eq, if_neg hm]
      rw [h0]
      exact Nat.zero_le _

theorem chainLen_D2 (w : List String) : ∀ i j, i ≤ j → chainLen w i j ≤ chainLen w i i := by
  intro i
  induction i with
  | zero =>
    intro j hj
    by_cases hm : memProc w 0 j
    · have hii : memProc w 0 0 := memProc_diag_right hm (by have := memProc_lt hm; omega)
      have h1 : chainLen w 0 j = 1 := by rw [chainLen_zero_eq, if_pos hm]
      have h2 : chainLen w 0 0 = 1 := by rw [chainLen_zero_eq, if_pos hii]
      omega
    · have h0 : chainLen w 0 j = 0 := by rw [chainLen_zero_eq, if_neg hm]
      rw [h0]
      exact Nat.zero_le _
  | succ i ih =>
    intro j hj
    by_cases hm : memProc w (i + 1) j
    · have hjn := memProc_lt hm
      have hii : memProc w (i + 1) (i + 1) := memProc_diag_right hm (by omega)
      cases j with
      | zero => omega
      | succ j' =>
        have h1 : chainLen w (i + 1) (j' + 1) = chainLen w i j' + 1 := by
          rw [chainLen_succ_eq, if_pos hm]
          simp
        have h2 : chainLen w (i + 1) (i + 1) = chainLen w i i + 1 := by
          rw [chainLen_succ_eq, if_pos hii]
          simp
        have h3 := ih j' (by omega)
        omega
    · have h0 : chainLen w (i + 1) j = 0 := by
        rw [chainLen_succ_eq, if_neg hm]
      rw [h0]
      exact Nat.zero_le _

theorem chainLen_eq_zero {w : List String} {i j : Nat} (h : ¬ memProc w i j) :
    chainLen w i j = 0 := by
  cases i with
  | zero => rw [chainLen_zero_eq, if_neg h]
  | succ i => rw [chainLen_succ_eq, if_neg h]

theorem flmRow_self (w : List String) (i : Nat) (hi : i < w.length)
    (j2lenPrev : Nat → Nat) (bi bs : Nat)
    (hk : ∀ j, memProc w i j → (if j = 0 then 0 else j2lenPrev (j - 1)) + 1 = chainLen w i j)
    (hdom : ∀ j' < i, chainLen w j' j' ≤ bs)
    (hbnd : bi + bs ≤ i) :
    ∃ nj bi' bs',
      flmRow w w 0 w.length (j2lenPrev, bi, bi, bs) i = (nj, bi', bi', bs') ∧
      (∀ y, nj y = chainLen w i y) ∧
      (∀ j' < i + 1, chainLen w j' j' ≤ bs') ∧ bi' + bs' ≤ i + 1 := by
  have hrow : flmRow w w 0 w.length (j2lenPrev, bi, bi, bs) i
      = (rowIndices w 0 w.length (w.getD i "")).foldl (flmInner j2lenPrev i)
          ((fun _ => 0), bi, bi, bs) := rfl
  rw [rowIndices_full] at hrow
  by_cases hpop : 200 ≤ w.length ∧ w.length / 100 + 1 < w.count (w.getD i "")
  · have hb : b2j w (w.getD i "") = [] := by unfold b2j; rw [if_pos hpop]
    rw [hb] at hrow
    simp only [List.foldl_nil] at hrow
    have hnom : ∀ y, ¬ memProc w i y := by
      intro y hy
      have h := memProc_iff.mp hy
      rw [hb] at h
      cases h
    refine ⟨(fun _ => 0), bi, bs, hrow, ?_, ?_, by omega⟩
    · intro y
      exact (chainLen_eq_zero (hnom y)).symm
    · intro j' hj'
      rcases Nat.lt_or_ge j' i with h | h
      · exact hdom j' h
      · have hji : j' = i := by omega
        subst hji
        rw [chainLen_eq_zero (hnom j')]
        exact Nat.zero_le _
  · have hb : b2j w (w.getD i "") = (List.range w.length).filter
        (fun j => decide (w.getD j "" = w.getD i "")) := by
      unfold b2j; rw [if_neg hpop]
    have hmem : ∀ y, y < w.length → ((w.getD y "" = w.getD i "") ↔ memProc w i y) := by
      intro y hy
      rw [memProc_iff, mem_b2j]
      exact ⟨fun h => ⟨hpop, hy, h⟩, fun h => h.2.2⟩
    rw [hb, foldl_filter_eq] at hrow
    have key := foldl_range_inv
      (fun (s : FlmState) (a : Nat) =>
        if decide (w.getD a "" = w.getD i "") = true then flmInner j2lenPrev i s a else s)
      (fun jcur s =>
        (∀ y, s.1 y = if y < jcur then chainLen w i y else 0) ∧
        s.2.1 = s.2.2.1 ∧
        (∀ j' < i, chainLen w j' j' ≤ s.2.2.2) ∧
        (∀ y < jcur, chainLen w i y ≤ s.2.2.2) ∧
        s.2.1 + s.2.2.2 ≤ i + 1)
      w.length ((fun _ => 0), bi, bi, bs)
      (by
        refine ⟨?_, rfl, hdom, ?_, by dsimp only; omega⟩
        · intro y
          simp
        · intro y hy
          exact absurd hy (Nat.not_lt_zero y))
      (by
        intro a s ha hInv
        obtain ⟨nj, sb1, sb2, sbs⟩ := s
        obtain ⟨h1, h2, h3, h4, h5⟩ := hInv
        dsimp only at h1 h2 h3 h4 h5 ⊢
        subst h2
        by_cases hpred : w.getD a "" = w.getD i ""
        · rw [if_pos (by simpa using hpred)]
          have hma : memProc w i a := (hmem a ha).mp hpred
          have hkk := hk a hma
          dsimp only [flmInner]
          by_cases hlt : sbs < (if a = 0 then 0 else j2lenPrev (a - 1)) + 1
          · rw [if_pos hlt]
            dsimp only
            have hyi : a = i := by
              rcases Nat.lt_trichotomy a i with h | h | h
              · have d1 := chainLen_D1 w i a (Nat.le_of_lt h)
                have h3a := h3 a h
                omega
              · exact h
              · have d2 := chainLen_D2 w i a (Nat.le_of_lt h)
                have h4i := h4 i h
                omega
            subst hyi
            refine ⟨?_, rfl, ?_, ?_, ?_⟩
            · intro y
              by_cases hy' : y = a
              · subst hy'
                rw [if_pos rfl, if_pos (Nat.lt_succ_self y), hkk]
              · rw [if_neg hy', h1 y]
                by_cases hy2 : y < a
                · rw [if_pos hy2, if_pos (by omega)]
                · rw [if_neg hy2, if_neg (by omega)]
            · intro j' hj'
              have h3j := h3 j' hj'
              omega
            · intro y hy'
              rcases Nat.lt_or_ge y a with h | h
              · have h4y := h4 y h
                omega
              · have hya : y = a := by omega
                subst hya
                rw [← hkk]
            · have hle := chainLen_le w a a
              rw [← hkk] at hle
              omega
          · rw [if_neg hlt]
            dsimp only
            refine ⟨?_, rfl, h3, ?_, h5⟩
            · intro y
              by_cases hy' : y = a
              · subst hy'
                rw [if_pos rfl, if_pos (Nat.lt_succ_self y)]
                exact hkk
              · rw [if_neg hy', h1 y]
                by_cases hy2 : y < a
                · rw [if_pos hy2, if_pos (by omega)]
                · rw [if_neg hy2, if_neg (by omega)]
            · intro y hy'
              rcases Nat.lt_or_ge y a with h | h
              · exact h4 y h
              · have hya : y = a := by omega
                subst hya
                rw [← hkk]
                omega
        · rw [if_neg (by simpa using hpred)]
          dsimp only
          have hnm : ¬ memProc w i a := fun hm => hpred ((hmem a ha).mpr hm)
          have hc0 := chainLen_eq_zero hnm
          refine ⟨?_, rfl, h3, ?_, h5⟩
          · intro y
            rw [h1 y]
            by_cases hy2 : y < a
            · rw [if_pos hy2, if_pos (by omega)]
            · rw [if_neg hy2]
              by_cases hy3 : y < a + 1
              · have hya : y = a := by omega
                subst hya
                rw [if_pos hy3, hc0]
              · rw [if_neg hy3]
          · intro y hy'
            rcases Nat.lt_or_ge y a with h | h
            · exact h4 y h
            · have hya : y = a := by omega
              subst hya
              rw [hc0]
              exact Nat.zero_le _)
    have hrow2 : flmRow w w 0 w.length (j2lenPrev, bi, bi, bs) i
        = (List.range w.length).foldl
            (fun (s : FlmState) (a : Nat) =>
              if decide (w.getD a "" = w.getD i "") = true then flmInner j2lenPrev i s a else s)
            ((fun _ => 0), bi, bi, bs) := hrow
    rcases hF : (List.range w.length).foldl
        (fun (s : FlmState) (a : Nat) =>
          if decide (w.getD a "" = w.getD i "") = true then flmInner j2lenPrev i s a else s)
        ((fun _ => 0), bi, bi, bs) with ⟨nj, b1, b2, bs'⟩
    rw [hF] at key hrow2
    obtain ⟨k1, k2, k3, k4, k5⟩ := key
    dsimp only at k1 k2 k3 k4 k5
    subst k2
    refine ⟨nj, b1, bs', hrow2, ?_, ?_, k5⟩
    · intro y
      rcases Nat.lt_or_ge y w.length with h | h
      · rw [k1 y, if_pos h]
      · rw [k1 y, if_neg (by omega)]
        refine (chainLen_eq_zero fun hm => ?_).symm
        exact absurd (memProc_lt hm) (by omega)
    · intro j' hj'
      rcases Nat.lt_or_ge j' i with h | h
      · exact k3 j' h
      · have hji : j' = i := by omega
        subst hji
        exact k4 j' hi

theorem flmDP_self (w : List String) :
    ∃ b bs, flmDP w w 0 w.length 0 w.length = (b, b, bs) ∧ b + bs ≤ w.length := by
  have key := foldl_range_inv (flmRow w w 0 w.length)
    (fun i s =>
      (∀ j, memProc w i j → (if j = 0 then 0 else s.1 (j - 1)) + 1 = chainLen w i j) ∧
      s.2.1 = s.2.2.1 ∧
      (∀ j' < i, chainLen w j' j' ≤ s.2.2.2) ∧ s.2.1 + s.2.2.2 ≤ i)
    w.length ((fun _ => 0), 0, 0, 0)
    (by
      refine ⟨?_, rfl, ?_, by dsimp only; omega⟩
      · intro j hm
        dsimp only
        rw [chainLen_zero_eq, if_pos hm]
        split <;> rfl
      · intro j' hj'
        exact absurd hj' (Nat.not_lt_zero j'))
    (by
      intro k s hkn hInv
      obtain ⟨nj, sb1, sb2, sbs⟩ := s
      obtain ⟨h1, h2, h3, h4⟩ := hInv
      dsimp only at h1 h2 h3 h4
      subst h2
      obtain ⟨nj', b1', bs', heq, hnjc, hdom', hbnd'⟩ :=
        flmRow_self w k hkn nj sb1 sbs h1 h3 h4
      rw [heq]
      refine ⟨?_, rfl, hdom', hbnd'⟩
      intro j hm
      dsimp only
      rw [chainLen_succ_eq, if_pos hm]
      cases j with
      | zero => simp
      | succ j' =>
        simp [hnjc])
  rw [List.range_eq_range'] at key
  rcases hF : (List.range' 0 w.length).foldl (flmRow w w 0 w.length) ((fun _ => 0), 0, 0, 0)
    with ⟨nj, b1, b2, bs⟩
  rw [hF] at key
  obtain ⟨-, k2, -, k4⟩ := key
  dsimp only at k2 k4
  subst k2
  refine ⟨b1, bs, ?_, k4⟩
  show (fun p : (Nat → Nat) × Nat × Nat × Nat => (p.2.1, p.2.2.1, p.2.2.2))
    ((List.range' 0 (w.length - 0)).foldl (flmRow w w 0 w.length) ((fun _ => 0), 0, 0, 0))
    = (b1, b1, bs)
  simp only [Nat.sub_zero]
  rw [hF]

theorem extendLeft_diag (w : List String) : ∀ bi bs,
    extendLeft w w 0 0 bi bi bs = (0, 0, bs + bi)
  | 0, bs => by
    unfold extendLeft
    simp
  | bi + 1, bs => by
    unfold extendLeft
    rw [if_pos ⟨Nat.succ_pos bi, Nat.succ_pos bi, rfl⟩]
    rw [extendLeft_diag w bi (bs + 1)]
    rw [show bs + 1 + bi = bs + (bi + 1) from by omega]

theorem extendRight_diag (w : List String) : ∀ fuel s, s ≤ w.length →
    w.length - s ≤ fuel → extendRightF w w w.length w.length 0 0 fuel s = w.length
  | 0, s, hs, hf => by
    have hsn : s = w.length := by omega
    unfold extendRightF
    exact hsn
  | fuel + 1, s, hs, hf => by
    unfold extendRightF
    by_cases hsn : s < w.length
    · rw [if_pos ⟨by omega, by omega, rfl⟩]
      exact extendRight_diag w fuel (s + 1) (by omega) (by omega)
    · rw [if_neg (by omega)]
      omega

theorem findLongestMatch_self (w : List String) :
    findLongestMatch w w 0 w.length 0 w.length = (0, 0, w.length) := by
  obtain ⟨b, bs, hdp, hb⟩ := flmDP_self w
  unfold findLongestMatch
  rw [hdp]
  dsimp only
  rw [extendLeft_diag w b bs]
  dsimp only
  rw [extendRight_diag w w.length (bs + b) (by omega) (by omega)]

theorem rawBlocks_self (w : List String) (hn : w.length ≠ 0) :
    rawBlocksF w w (w.length + w.length + 1) 0 w.length 0 w.length = [(0, 0, w.length)] := by
  unfold rawBlocksF
  rw [findLongestMatch_self]
  dsimp only
  rw [if_pos hn, if_neg (by omega : ¬(0 + w.length < w.length ∧ 0 + w.length < w.length)),
    if_neg (by simp : ¬((0:Nat) < 0 ∧ (0:Nat) < 0))]
  simp

theorem getMatchingBlocks_self (w : List String) (hn : w.length ≠ 0) :
    getMatchingBlocks w w = [(0, 0, w.length), (w.length, w.length, 0)] := by
  unfold getMatchingBlocks
  rw [rawBlocks_self w hn]
  simp [sortBlocks, insertBlock, hn]

theorem getOpcodes_self (w : List String) (hn : w.length ≠ 0) :
    getOpcodes w w = [(DTag.equal, 0, w.length, 0, w.length)] := by
  unfold getOpcodes
  rw [getMatchingBlocks_self w hn]
  simp [hn]

theorem markdown_diff_self (A : String) : markdown_diff A A = joinSpace (pyWords A) := by
  by_cases h : (pyWords A).length = 0
  · have h0 : pyWords A = [] := List.length_eq_zero.mp h
    unfold markdown_diff
    rw [h0]
    rfl
  · show joinSpace (opChunks (pyWords A) (pyWords A)
      (getOpcodes (pyWords A) (pyWords A))) = joinSpace (pyWords A)
    rw [getOpcodes_self (pyWords A) h]
    simp [opChunks, pySlice, List.take_length]

/-! ### Word splitting distributes over space-separated concatenation -/

theorem wordsCore_space_ne_nil : ∀ (xs ys : List Char), wordsCore (xs ++ ' ' :: ys) ≠ []
  | [], ys => by
    simp [wordsCore, (show isPySpace ' ' = true from rfl)]
  | c :: xs, ys => by
    simp only [List.cons_append, wordsCore]
    by_cases hc : isPySpace c = true
    · simp [hc]
    · simp only [hc, if_false, Bool.false_eq_true]
      rcases h : wordsCore (xs ++ ' ' :: ys) with _ | ⟨w, rest⟩
      · exact absurd h (wordsCore_space_ne_nil xs ys)
      · simp

theorem wordsCore_space_split (ys : List Char) :
    ∀ xs, wordsCore (xs ++ ' ' :: ys) = wordsCore (xs ++ [' ']) ++ wordsCore ys
  | [] => by
    simp [wordsCore, (show isPySpace ' ' = true from rfl)]
  | c :: xs => by
    simp only [List.cons_append, wordsCore, List.append_eq]
    by_cases hc : isPySpace c = true
    · simp only [hc, if_true]
      rw [wordsCore_space_split ys xs]
      simp
    · simp only [hc, if_false, Bool.false_eq_true]
      obtain ⟨w, rest, hwr⟩ : ∃ w rest, wordsCore (xs ++ [' ']) = w :: rest := by
        rcases h : wordsCore (xs ++ [' ']) with _ | ⟨w, rest⟩
        · exact absurd h (wordsCore_space_ne_nil xs [])
        · exact ⟨w, rest, rfl⟩
      rw [wordsCore_space_split ys xs, hwr]
      simp

theorem wordsCore_append_space_disj : ∀ xs : List Char,
    wordsCore (xs ++ [' ']) = wordsCore xs ∨ wordsCore (xs ++ [' ']) = wordsCore xs ++ [[]]
  | [] => by
    right
    simp [wordsCore, (show isPySpace ' ' = true from rfl)]
  | c :: xs => by
    simp only [List.cons_append, wordsCore, List.append_eq]
    rcases wordsCore_append_space_disj xs with ih | ih
    · by_cases hc : isPySpace c = true
      · simp only [hc, if_true, ih]
        left
        trivial
      · simp only [hc, if_false, Bool.false_eq_true, ih]
        left
        trivial
    · by_cases hc : isPySpace c = true
      · simp only [hc, if_true, ih]
        right
        trivial
      · simp only [hc, if_false, Bool.false_eq_true, ih]
        rcases h : wordsCore xs with _ | ⟨w, rest⟩
        · left
          simp
        · right
          simp

theorem pwChars_append_space (xs ys : List Char) :
    pwChars (xs ++ ' ' :: ys) = pwChars xs ++ pwChars ys := by
  unfold pwChars
  rw [wordsCore_space_split ys xs, List.filter_append]
  rcases wordsCore_append_space_disj xs with h | h
  · rw [h]
  · rw [h, List.filter_append]
    simp

theorem pwChars_interSpace : ∀ l : List (List Char),
    pwChars (interSpace l) = l.flatMap pwChars
  | [] => rfl
  | [c] => by simp [interSpace]
  | c :: c2 :: rest => by
    show pwChars (c ++ ' ' :: interSpace (c2 :: rest)) = _
    rw [pwChars_append_space, pwChars_interSpace (c2 :: rest)]
    simp

theorem joinSpace_toList : ∀ l : List String,
    (joinSpace l).toList = interSpace (l.map String.toList)
  | [] => rfl
  | [s] => rfl
  | s :: s2 :: rest => by
    show (s ++ " " ++ joinSpace (s2 :: rest)).toList = _
    have h2 : interSpace (String.toList s :: String.toList s2 :: (s2 :: rest).tail.map String.toList)
        = s.toList ++ ' ' :: interSpace ((s2 :: rest).map String.toList) := rfl
    simp only [List.map_cons]
    rw [show interSpace (s.toList :: s2.toList :: rest.map String.toList)
        = s.toList ++ ' ' :: interSpace (s2.toList :: rest.map String.toList) from rfl]
    rw [← List.map_cons String.toList s2 rest, ← joinSpace_toList (s2 :: rest)]
    simp [String.toList, String.data_append]

/-! ### `stripPair` distribution over marker-free text and marker-wrapped chunks -/

theorem stripPair_cons_cons (m c1 c2 : Char) (rest : List Char) :
    stripPair m (c1 :: c2 :: rest) =
      if c1 = m ∧ c2 = m then stripPair m rest else c1 :: stripPair m (c2 :: rest) := by
  simp only [stripPair]

theorem stripPair_not_mem (m : Char) :
    ∀ xs ys, (∀ c ∈ xs, c ≠ m) → stripPair m (xs ++ ys) = xs ++ stripPair m ys
  | [], ys, _ => rfl
  | c :: xs, ys, h => by
    have hc : c ≠ m := h c (List.mem_cons_self c xs)
    rcases hxs : xs ++ ys with _ | ⟨c2, rest⟩
    · obtain ⟨hx, hy⟩ := List.append_eq_nil.mp hxs
      subst hx
      subst hy
      rfl
    · show stripPair m (c :: (xs ++ ys)) = c :: xs ++ stripPair m ys
      rw [hxs, stripPair_cons_cons, if_neg (fun hh => hc hh.1)]
      rw [← hxs, stripPair_not_mem m xs ys (fun c hm => h c (List.mem_cons_of_mem _ hm))]
      rfl

theorem stripPair_eq_self {m : Char} {l : List Char} (h : ∀ c ∈ l, c ≠ m) :
    stripPair m l = l := by
  have hx := stripPair_not_mem m l [] h
  simpa [stripPair] using hx

theorem stripPair_pair (m : Char) (rest : List Char) :
    stripPair m (m :: m :: rest) = stripPair m rest := by
  rw [stripPair_cons_cons, if_pos ⟨rfl, rfl⟩]

theorem stripPair_shape {m : Char} {mid : List Char} (h : ∀ c ∈ mid, c ≠ m) :
    stripPair m (m :: m :: (mid ++ [m, m])) = mid := by
  rw [stripPair_pair, stripPair_not_mem m mid [m, m] h, stripPair_pair]
  simp [stripPair]

theorem stripPair_space_cons {m : Char} (hm : m ≠ ' ') :
    ∀ t, stripPair m (' ' :: t) = ' ' :: stripPair m t
  | [] => rfl
  | c :: t => by
    rw [stripPair_cons_cons, if_neg (fun hh => hm hh.1.symm)]

theorem stripPair_interSpace {m : Char} (hm : m ≠ ' ') :
    ∀ chunks : List (List Char),
      (∀ c ∈ chunks, (∀ x ∈ c, x ≠ m) ∨
        ∃ mid, (∀ x ∈ mid, x ≠ m) ∧ c = m :: m :: (mid ++ [m, m])) →
      stripPair m (interSpace chunks) = interSpace (chunks.map (stripPair m))
  | [], _ => rfl
  | [c], h => by
    show stripPair m c = interSpace [stripPair m c]
    rfl
  | c :: c2 :: rest, h => by
    show stripPair m (c ++ ' ' :: interSpace (c2 :: rest))
      = interSpace (stripPair m c :: (c2 :: rest).map (stripPair m))
    have hrest := stripPair_interSpace hm (c2 :: rest)
      (fun x hx => h x (List.mem_cons_of_mem _ hx))
    have htail : ∀ (hd : List Char) t,
        stripPair m t = interSpace ((c2 :: rest).map (stripPair m)) →
        hd ++ ' ' :: stripPair m t = interSpace (hd :: (c2 :: rest).map (stripPair m)) := by
      intro hd t ht
      rw [ht]
      rfl
    rcases h c (List.mem_cons_self c _) with hplain | ⟨mid, hmid, hshape⟩
    · rw [stripPair_not_mem m c (' ' :: interSpace (c2 :: rest)) hplain,
        stripPair_space_cons hm, stripPair_eq_self hplain]
      exact htail c _ hrest
    · subst hshape
      show stripPair m (m :: m :: (mid ++ [m, m]) ++ ' ' :: interSpace (c2 :: rest)) = _
      rw [show (m :: m :: (mid ++ [m, m])) ++ ' ' :: interSpace (c2 :: rest)
          = m :: m :: (mid ++ (m :: m :: ' ' :: interSpace (c2 :: rest))) by simp]
      rw [stripPair_pair, stripPair_not_mem m mid _ hmid, stripPair_pair,
        stripPair_space_cons hm]
      rw [stripPair_shape hmid]
      exact htail mid _ hrest

/-! ### Characters of split words -/

theorem wordsCore_chars : ∀ (l : List Char) (w : List Char), w ∈ wordsCore l →
    ∀ c ∈ w, c ∈ l ∧ isPySpace c = false
  | [], w, hw => by cases hw
  | a :: l, w, hw => by
    intro c hc
    simp only [wordsCore] at hw
    by_cases ha : isPySpace a = true
    · rw [if_pos ha] at hw
      rcases List.mem_cons.mp hw with rfl | hw
      · cases hc
      · have := wordsCore_chars l w hw c hc
        exact ⟨List.mem_cons_of_mem _ this.1, this.2⟩
    · rw [if_neg ha] at hw
      rcases hl : wordsCore l with _ | ⟨w0, rest⟩
      · rw [hl] at hw
        rcases List.mem_cons.mp hw with rfl | hw
        · rcases List.mem_cons.mp hc with rfl | hc
          · exact ⟨List.mem_cons_self _ _, Bool.not_eq_true _ ▸ ha⟩
          · cases hc
        · cases hw
      · rw [hl] at hw
        rcases List.mem_cons.mp hw with rfl | hw
        · rcases List.mem_cons.mp hc with rfl | hc
          · exact ⟨List.mem_cons_self _ _, Bool.not_eq_true _ ▸ ha⟩
          · have := wordsCore_chars l w0 (hl ▸ List.mem_cons_self w0 rest) c hc
            exact ⟨List.mem_cons_of_mem _ this.1, this.2⟩
        · have := wordsCore_chars l w (hl ▸ List.mem_cons_of_mem w0 hw) c hc
          exact ⟨List.mem_cons_of_mem _ this.1, this.2⟩

theorem pyWords_word_chars {s w : String} (hw : w ∈ pyWords s) :
    w.toList ≠ [] ∧ ∀ c ∈ w.toList, c ∈ s.toList ∧ isPySpace c = false := by
  unfold pyWords at hw
  rcases List.mem_map.mp hw with ⟨wl, hwl, rfl⟩
  have hmem := List.mem_filter.mp hwl
  refine ⟨?_, ?_⟩
  · intro hnil
    have : wl = [] := hnil
    rw [this] at hmem
    simp [List.isEmpty] at hmem
  · intro c hc
    exact wordsCore_chars s.toList wl hmem.1 c hc

theorem wordsCore_single : ∀ l : List Char, l ≠ [] → (∀ c ∈ l, isPySpace c = false) →
    wordsCore l = [l]
  | [], h, _ => absurd rfl h
  | [c], _, h => by
    have hc := h c (List.mem_cons_self c [])
    simp [wordsCore, hc]
  | c :: c2 :: l, _, h => by
    have hc : isPySpace c = false := h c (List.mem_cons_self _ _)
    have hrec := wordsCore_single (c2 :: l) (by simp)
      (fun x hx => h x (List.mem_cons_of_mem _ hx))
    simp only [wordsCore] at hrec ⊢
    rw [hc]
    simp only [Bool.false_eq_true, if_false]
    rw [hrec]

theorem pyWords_single {w : String} (hne : w.toList ≠ [])
    (hns : ∀ c ∈ w.toList, isPySpace c = false) : pyWords w = [w] := by
  unfold pyWords
  rw [wordsCore_single w.toList hne hns]
  rw [List.filter_cons]
  simp only [List.filter_nil]
  rw [if_pos (by simp [List.isEmpty_iff]; exact hne)]
  simp

theorem joinSpace_chars : ∀ (l : List String) (c : Char), c ∈ (joinSpace l).toList →
    (∃ w ∈ l, c ∈ w.toList) ∨ c = ' '
  | [], c, hc => by cases hc
  | [s], c, hc => Or.inl ⟨s, List.mem_cons_self s [], hc⟩
  | s :: s2 :: rest, c, hc => by
    have : (joinSpace (s :: s2 :: rest)).toList
        = s.toList ++ ' ' :: (joinSpace (s2 :: rest)).toList := by
      show (s ++ " " ++ joinSpace (s2 :: rest)).toList = _
      simp [String.toList, String.data_append]
    rw [this] at hc
    rcases List.mem_append.mp hc with h | h
    · exact Or.inl ⟨s, List.mem_cons_self s _, h⟩
    · rcases List.mem_cons.mp h with rfl | h
      · exact Or.inr rfl
      · rcases joinSpace_chars (s2 :: rest) c h with ⟨w, hw, hcw⟩ | h
        · exact Or.inl ⟨w, List.mem_cons_of_mem _ hw, hcw⟩
        · exact Or.inr h

theorem mem_pySlice {l : List String} {w : String} {i j : Nat} (h : w ∈ pySlice l i j) :
    w ∈ l :=
  List.mem_of_mem_take (List.mem_of_mem_drop h)

/-! ### The rendered chunk list and the word union as `flatMap`s -/

theorem opChunks_eq_flatMap (oldW newW : List String)
    (ops : List (DTag × Nat × Nat × Nat × Nat)) :
    opChunks oldW newW ops = ops.flatMap (opChunkOf oldW newW) := by
  have h : opChunks oldW newW ops
      = ops.foldl (fun r op => r ++ opChunkOf oldW newW op) [] := by
    unfold opChunks
    congr 1
    funext r op
    obtain ⟨tag, i1, i2, j1, j2⟩ := op
    cases tag <;> rfl
  rw [h, foldl_append_flatMap]
  simp

theorem unionWords_eq_flatMap (oldW newW : List String)
    (ops : List (DTag × Nat × Nat × Nat × Nat)) :
    unionWords oldW newW ops = ops.flatMap (opSliceOf oldW newW) := by
  have h : unionWords oldW newW ops
      = ops.foldl (fun r op => r ++ opSliceOf oldW newW op) [] := by
    unfold unionWords
    congr 1
    funext r op
    obtain ⟨tag, i1, i2, j1, j2⟩ := op
    cases tag with
    | equal => rfl
    | del => rfl
    | ins => rfl
    | replace => show r ++ _ ++ _ = r ++ (_ ++ _); rw [List.append_assoc]
  rw [h, foldl_append_flatMap]
  simp

/-! ### Per-word and per-chunk facts -/

theorem slice_word_facts {A : String} (hA : noMark A) {i j : Nat} {w : String}
    (hw : w ∈ pySlice (pyWords A) i j) :
    w.toList ≠ [] ∧ ∀ c ∈ w.toList, isPySpace c = false ∧ c ≠ '~' ∧ c ≠ '*' := by
  have hmem := mem_pySlice hw
  have h := pyWords_word_chars hmem
  refine ⟨h.1, fun c hc => ?_⟩
  have h2 := h.2 c hc
  exact ⟨h2.2, (hA c h2.1).1, (hA c h2.1).2⟩

theorem pwChars_word {w : String} (hne : w.toList ≠ [])
    (hns : ∀ c ∈ w.toList, isPySpace c = false) : pwChars w.toList = [w.toList] := by
  have h := pyWords_single hne hns
  unfold pyWords at h
  unfold pwChars
  rw [wordsCore_single w.toList hne hns, List.filter_cons]
  rw [if_pos (by simp [List.isEmpty_iff]; exact hne)]
  simp

theorem wordlist_roundtrip : ∀ l : List String,
    (∀ w ∈ l, w.toList ≠ [] ∧ ∀ c ∈ w.toList, isPySpace c = false ∧ c ≠ '~' ∧ c ≠ '*') →
    (((l.map (fun c => stripPair '*' (stripPair '~' c.toList))).flatMap pwChars).map
      String.mk) = l
  | [], _ => rfl
  | w :: l, h => by
    have hw := h w (List.mem_cons_self w l)
    have h1 : stripPair '~' w.toList = w.toList :=
      stripPair_eq_self (fun c hc => (hw.2 c hc).2.1)
    have h2 : stripPair '*' w.toList = w.toList :=
      stripPair_eq_self (fun c hc => (hw.2 c hc).2.2)
    have h3 : pwChars w.toList = [w.toList] :=
      pwChars_word hw.1 (fun c hc => (hw.2 c hc).1)
    have ih := wordlist_roundtrip l (fun x hx => h x (List.mem_cons_of_mem _ hx))
    simp only [List.map_cons, List.flatMap_cons, h1, h2, h3, List.map_append, ih]
    show [String.mk w.toList] ++ l = w :: l
    rfl

theorem pwChars_joinSpace_words : ∀ l : List String,
    (∀ w ∈ l, w.toList ≠ [] ∧ ∀ c ∈ w.toList, isPySpace c = false) →
    (pwChars (joinSpace l).toList).map String.mk = l
  | [], _ => rfl
  | [w], h => by
    show (pwChars w.toList).map String.mk = [w]
    have hw := h w (List.mem_cons_self w [])
    rw [pwChars_word hw.1 hw.2]
    rfl
  | w :: w2 :: rest, h => by
    have hw := h w (List.mem_cons_self w _)
    have htl : (joinSpace (w :: w2 :: rest)).toList
        = w.toList ++ ' ' :: (joinSpace (w2 :: rest)).toList := by
      show (w ++ " " ++ joinSpace (w2 :: rest)).toList = _
      simp [String.toList, String.data_append]
    rw [htl, pwChars_append_space, pwChars_word hw.1 hw.2, List.map_append,
      pwChars_joinSpace_words (w2 :: rest) (fun x hx => h x (List.mem_cons_of_mem _ hx))]
    rfl

theorem joinSpace_slice_chars {S : String} (hS : noMark S) (i j : Nat) :
    ∀ x ∈ (joinSpace (pySlice (pyWords S) i j)).toList, x ≠ '~' ∧ x ≠ '*' := by
  intro x hx
  rcases joinSpace_chars (pySlice (pyWords S) i j) x hx with ⟨w, hw, hxw⟩ | rfl
  · have hf := slice_word_facts hS hw
    exact ⟨(hf.2 x hxw).2.1, (hf.2 x hxw).2.2⟩
  · exact ⟨by decide, by decide⟩

theorem wrap_toList (l r inner : String) :
    (l ++ inner ++ r).toList = l.toList ++ (inner.toList ++ r.toList) := by
  simp [String.toList, String.data_append]

theorem tilde_wrap_toList (inner : String) :
    ("~~" ++ inner ++ "~~").toList = '~' :: '~' :: (inner.toList ++ ['~', '~']) := by
  rw [wrap_toList]
  rfl

theorem star_wrap_toList (inner : String) :
    ("**" ++ inner ++ "**").toList = '*' :: '*' :: (inner.toList ++ ['*', '*']) := by
  rw [wrap_toList]
  rfl

theorem tilde_wrap_strip (inner : String) (hinner : ∀ x ∈ inner.toList, x ≠ '~' ∧ x ≠ '*') :
    stripPair '~' ("~~" ++ inner ++ "~~").toList = inner.toList ∧
    stripPair '*' (stripPair '~' ("~~" ++ inner ++ "~~").toList) = inner.toList := by
  have h1 : stripPair '~' ("~~" ++ inner ++ "~~").toList = inner.toList := by
    rw [tilde_wrap_toList, stripPair_shape (fun x hx => (hinner x hx).1)]
  refine ⟨h1, ?_⟩
  rw [h1, stripPair_eq_self (fun x hx => (hinner x hx).2)]

theorem star_wrap_strip (inner : String) (hinner : ∀ x ∈ inner.toList, x ≠ '~' ∧ x ≠ '*') :
    stripPair '~' ("**" ++ inner ++ "**").toList = ("**" ++ inner ++ "**").toList ∧
    stripPair '*' (stripPair '~' ("**" ++ inner ++ "**").toList) = inner.toList := by
  have hno : ∀ x ∈ ("**" ++ inner ++ "**").toList, x ≠ '~' := by
    intro x hx
    rw [star_wrap_toList] at hx
    rcases List.mem_cons.mp hx with rfl | hx
    · decide
    rcases List.mem_cons.mp hx with rfl | hx
    · decide
    rcases List.mem_append.mp hx with hx | hx
    · exact (hinner x hx).1
    · rcases List.mem_cons.mp hx with rfl | hx
      · decide
      rcases List.mem_cons.mp hx with rfl | hx
      · decide
      cases hx
  have h1 : stripPair '~' ("**" ++ inner ++ "**").toList = ("**" ++ inner ++ "**").toList :=
    stripPair_eq_self hno
  refine ⟨h1, ?_⟩
  rw [h1, star_wrap_toList, stripPair_shape (fun x hx => (hinner x hx).2)]

theorem star_wrap_no_tilde (inner : String) (hinner : ∀ x ∈ inner.toList, x ≠ '~' ∧ x ≠ '*') :
    ∀ x ∈ ("**" ++ inner ++ "**").toList, x ≠ '~' := by
  intro x hx
  rw [star_wrap_toList] at hx
  rcases List.mem_cons.mp hx with rfl | hx
  · decide
  rcases List.mem_cons.mp hx with rfl | hx
  · decide
  rcases List.mem_append.mp hx with hx | hx
  · exact (hinner x hx).1
  · rcases List.mem_cons.mp hx with rfl | hx
    · decide
    rcases List.mem_cons.mp hx with rfl | hx
    · decide
    cases hx

theorem chunk_two_pass_good {A B : String} (hA : noMark A) (hB : noMark B)
    (op : DTag × Nat × Nat × Nat × Nat) (c : String)
    (hc : c ∈ opChunkOf (pyWords A) (pyWords B) op) :
    ((∀ x ∈ c.toList, x ≠ '~') ∨
      ∃ mid, (∀ x ∈ mid, x ≠ '~') ∧ c.toList = '~' :: '~' :: (mid ++ ['~', '~'])) ∧
    ((∀ x ∈ stripPair '~' c.toList, x ≠ '*') ∨
      ∃ mid, (∀ x ∈ mid, x ≠ '*') ∧
        stripPair '~' c.toList = '*' :: '*' :: (mid ++ ['*', '*'])) := by
  obtain ⟨tag, i1, i2, j1, j2⟩ := op
  cases tag with
  | equal =>
    have hf := slice_word_facts hA hc
    have hself : stripPair '~' c.toList = c.toList :=
      stripPair_eq_self (fun x hx => (hf.2 x hx).2.1)
    refine ⟨Or.inl (fun x hx => (hf.2 x hx).2.1), Or.inl ?_⟩
    intro x hx
    rw [hself] at hx
    exact (hf.2 x hx).2.2
  | del =>
    have hceq : c = "~~" ++ joinSpace (pySlice (pyWords A) i1 i2) ++ "~~" := by
      simpa [opChunkOf] using hc
    subst hceq
    have hinner := joinSpace_slice_chars hA i1 i2
    have hts := tilde_wrap_strip _ hinner
    refine ⟨Or.inr ⟨(joinSpace (pySlice (pyWords A) i1 i2)).toList,
      fun x hx => (hinner x hx).1, tilde_wrap_toList _⟩, Or.inl ?_⟩
    intro x hx
    rw [hts.1] at hx
    exact (hinner x hx).2
  | ins =>
    have hceq : c = "**" ++ joinSpace (pySlice (pyWords B) j1 j2) ++ "**" := by
      simpa [opChunkOf] using hc
    subst hceq
    have hinner := joinSpace_slice_chars hB j1 j2
    have hss := star_wrap_strip _ hinner
    refine ⟨Or.inl (star_wrap_no_tilde _ hinner), Or.inr
      ⟨(joinSpace (pySlice (pyWords B) j1 j2)).toList, fun x hx => (hinner x hx).2, ?_⟩⟩
    rw [hss.1, star_wrap_toList]
  | replace =>
    rcases List.mem_cons.mp hc with hceq | hc2
    · subst hceq
      have hinner := joinSpace_slice_chars hA i1 i2
      have hts := tilde_wrap_strip _ hinner
      refine ⟨Or.inr ⟨(joinSpace (pySlice (pyWords A) i1 i2)).toList,
        fun x hx => (hinner x hx).1, tilde_wrap_toList _⟩, Or.inl ?_⟩
      intro x hx
      rw [hts.1] at hx
      exact (hinner x hx).2
    · have hceq : c = "**" ++ joinSpace (pySlice (pyWords B) j1 j2) ++ "**" := by
        simpa using hc2
      subst hceq
      have hinner := joinSpace_slice_chars hB j1 j2
      have hss := star_wrap_strip _ hinner
      refine ⟨Or.inl (star_wrap_no_tilde _ hinner), Or.inr
        ⟨(joinSpace (pySlice (pyWords B) j1 j2)).toList, fun x hx => (hinner x hx).2, ?_⟩⟩
      rw [hss.1, star_wrap_toList]

theorem opChunk_strip_words {A B : String} (hA : noMark A) (hB : noMark B)
    (op : DTag × Nat × Nat × Nat × Nat) :
    (((opChunkOf (pyWords A) (pyWords B) op).map
        (fun c => stripPair '*' (stripPair '~' c.toList))).flatMap pwChars).map String.mk
      = opSliceOf (pyWords A) (pyWords B) op := by
  obtain ⟨tag, i1, i2, j1, j2⟩ := op
  cases tag with
  | equal =>
    exact wordlist_roundtrip _ (fun w hw => slice_word_facts hA hw)
  | del =>
    have hinner := joinSpace_slice_chars hA i1 i2
    have hts := tilde_wrap_strip _ hinner
    show ((([stripPair '*' (stripPair '~' ("~~" ++ _ ++ "~~").toList)]).flatMap pwChars).map
      String.mk) = _
    rw [hts.2]
    simp only [List.flatMap_cons, List.flatMap_nil, List.append_nil]
    exact pwChars_joinSpace_words _
      (fun w hw => ⟨(slice_word_facts hA hw).1, fun x hx => ((slice_word_facts hA hw).2 x hx).1⟩)
  | ins =>
    have hinner := joinSpace_slice_chars hB j1 j2
    have hss := star_wrap_strip _ hinner
    show ((([stripPair '*' (stripPair '~' ("**" ++ _ ++ "**").toList)]).flatMap pwChars).map
      String.mk) = _
    rw [hss.2]
    simp only [List.flatMap_cons, List.flatMap_nil, List.append_nil]
    exact pwChars_joinSpace_words _
      (fun w hw => ⟨(slice_word_facts hB hw).1, fun x hx => ((slice_word_facts hB hw).2 x hx).1⟩)
  | replace =>
    have hinnerA := joinSpace_slice_chars hA i1 i2
    have hinnerB := joinSpace_slice_chars hB j1 j2
    have hts := tilde_wrap_strip _ hinnerA
    have hss := star_wrap_strip _ hinnerB
    show ((([stripPair '*' (stripPair '~' ("~~" ++ _ ++ "~~").toList),
      stripPair '*' (stripPair '~' ("**" ++ _ ++ "**").toList)]).flatMap pwChars).map
      String.mk) = _
    rw [hts.2, hss.2]
    show (((pwChars (joinSpace (pySlice (pyWords A) i1 i2)).toList) ++
      ((pwChars (joinSpace (pySlice (pyWords B) j1 j2)).toList) ++ [])).map String.mk) = _
    rw [List.append_nil, List.map_append,
      pwChars_joinSpace_words _ (fun w hw => ⟨(slice_word_facts hA hw).1,
        fun x hx => ((slice_word_facts hA hw).2 x hx).1⟩),
      pwChars_joinSpace_words _ (fun w hw => ⟨(slice_word_facts hB hw).1,
        fun x hx => ((slice_word_facts hB hw).2 x hx).1⟩)]
    rfl

theorem triple_map_strip (l : List String) :
    ((l.map String.toList).map (stripPair '~')).map (stripPair '*')
      = l.map (fun c => stripPair '*' (stripPair '~' c.toList)) := by
  rw [List.map_map, List.map_map]
  rfl

theorem markdown_diff_strip_union (A B : String) (hA : noMark A) (hB : noMark B) :
    pyWords (stripMarkers (markdown_diff A B)) =
      unionWords (pyWords A) (pyWords B) (getOpcodes (pyWords A) (pyWords B)) := by
  obtain ⟨chunks, hch⟩ : ∃ c, c = opChunks (pyWords A) (pyWords B)
      (getOpcodes (pyWords A) (pyWords B)) := ⟨_, rfl⟩
  have hmd : markdown_diff A B = joinSpace chunks := by
    rw [hch]
    rfl
  have hflat : chunks
      = (getOpcodes (pyWords A) (pyWords B)).flatMap (opChunkOf (pyWords A) (pyWords B)) := by
    rw [hch]
    exact opChunks_eq_flatMap _ _ _
  have hmemgood : ∀ c ∈ chunks,
      ((∀ x ∈ c.toList, x ≠ '~') ∨
        ∃ mid, (∀ x ∈ mid, x ≠ '~') ∧ c.toList = '~' :: '~' :: (mid ++ ['~', '~'])) ∧
      ((∀ x ∈ stripPair '~' c.toList, x ≠ '*') ∨
        ∃ mid, (∀ x ∈ mid, x ≠ '*') ∧
          stripPair '~' c.toList = '*' :: '*' :: (mid ++ ['*', '*'])) := by
    intro c hc
    rw [hflat] at hc
    rcases List.mem_flatMap.mp hc with ⟨op, hop, hcop⟩
    exact chunk_two_pass_good hA hB op c hcop
  have h0 : (markdown_diff A B).toList = interSpace (chunks.map String.toList) := by
    rw [hmd]
    exact joinSpace_toList chunks
  have h1 : stripPair '~' (interSpace (chunks.map String.toList))
      = interSpace ((chunks.map String.toList).map (stripPair '~')) := by
    apply stripPair_interSpace (by decide)
    intro cl hcl
    rcases List.mem_map.mp hcl with ⟨c, hc, rfl⟩
    exact (hmemgood c hc).1
  have h2 : stripPair '*' (interSpace ((chunks.map String.toList).map (stripPair '~')))
      = interSpace (((chunks.map String.toList).map (stripPair '~')).map (stripPair '*')) := by
    apply stripPair_interSpace (by decide)
    intro cl hcl
    rcases List.mem_map.mp hcl with ⟨cl0, hcl0, rfl⟩
    rcases List.mem_map.mp hcl0 with ⟨c, hc, rfl⟩
    exact (hmemgood c hc).2
  have hstrip : stripMarkers (markdown_diff A B) = String.mk
      (interSpace (chunks.map (fun c => stripPair '*' (stripPair '~' c.toList)))) := by
    unfold stripMarkers
    rw [h0, h1, h2, triple_map_strip]
  have hpw : pyWords (stripMarkers (markdown_diff A B))
      = ((chunks.map (fun c => stripPair '*' (stripPair '~' c.toList))).flatMap
          pwChars).map String.mk := by
    rw [hstrip]
    show (pwChars (interSpace _)).map String.mk = _
    rw [pwChars_interSpace]
  rw [hpw, hflat, List.map_flatMap,
    List.map_flatMap (fun c => stripPair '*' (stripPair '~' c.toList))
      (opChunkOf (pyWords A) (pyWords B)),
    List.flatMap_assoc, unionWords_eq_flatMap]
  refine List.flatMap_congr (fun op _ => ?_)
  rw [← List.map_flatMap]
  exact opChunk_strip_words hA hB op

theorem markdown_diff_self_noMark (A : String) (hA : noMark A) :
    noMark (markdown_diff A A) := by
  rw [markdown_diff_self]
  intro c hc
  rcases joinSpace_chars (pyWords A) c hc with ⟨w, hw, hcw⟩ | rfl
  · have h := pyWords_word_chars hw
    exact hA c (h.2 c hcw).1
  · exact ⟨by decide, by decide⟩

/-- C9 (counterexample): `markdown_diff` applied to two copies of `"a  b"`
returns `"a b"`, collapsing the run of whitespace, so `render(A, A)` is not `A`
unchanged; and for `A = ""`, `B = "**"` the inserted word consists of marker
characters, stripping destroys it, and the stripped render is not the
word-level union of the edit script. -/
theorem C9_counterexample :
    markdown_diff "a  b" "a  b" ≠ "a  b" ∧
    pyWords (stripMarkers (markdown_diff "" "**")) ≠
      unionWords (pyWords "") (pyWords "**") (getOpcodes (pyWords "") (pyWords "**")) := by
  decide

/-- C9 (amended): `markdown_diff A A` returns the words of `A` rejoined with
single spaces — `A` itself exactly when `A` is already space-normalized — and
introduces no `~~`/`**` markers when `A` contains none; and for
marker-free `A`, `B`, stripping all markers from `markdown_diff A B` and
splitting into words yields exactly the word-level union implied by the edit
script: equal words once, deleted words from `A`, inserted words from `B`, in
script order. -/
theorem C9_amended_render (A B : String) :
    markdown_diff A A = joinSpace (pyWords A) ∧
    (noMark A → noMark (markdown_diff A A)) ∧
    (noMark A → noMark B →
      pyWords (stripMarkers (markdown_diff A B)) =
        unionWords (pyWords A) (pyWords B) (getOpcodes (pyWords A) (pyWords B))) :=
  ⟨markdown_diff_self A, markdown_diff_self_noMark A, markdown_diff_strip_union A B⟩

/-- Witness for C9 (amended) at `A = "alpha beta"`, `B = "alpha gamma"`. -/
theorem C9_amended_render_witness :
    noMark "alpha beta" ∧ noMark "alpha gamma" ∧
    pyWords (stripMarkers (markdown_diff "alpha beta" "alpha gamma")) =
      unionWords (pyWords "alpha beta") (pyWords "alpha gamma")
        (getOpcodes (pyWords "alpha beta") (pyWords "alpha gamma")) :=
  ⟨by decide, by decide,
    (C9_amended_render "alpha beta" "alpha gamma").2.2 (by decide) (by decide)⟩
